import Mathlib

/-!
# Treetis: the game-state engine of `src/main.cpp`

A shallow embedding of the falling-block game in `src/main.cpp`:
the piece (`Tetromino`), the playing field (`grid`, `CheckCollision`,
`LockToGrid`, `ClearLines`), the score channel (`Subject`, `ScoreUI`) and
one iteration of the main loop (`step`).

Modelling conventions.

* `Vector2` holds two C `float`s.  Every coordinate the program stores in a
  piece is a whole number (the literals of `CreateTetromino` and the unit
  steps of `Move`), so piece coordinates are `Int`.  A `float` has a 24-bit
  significand: sums of whole numbers are exact while they stay within `2^24`
  in magnitude, and are rounded beyond.  `Tetromino.Move` adds exactly, which
  is the program on the 10x20 field; `float32Round`, `Tetromino.MoveFloat`,
  `handleLeftFloat` and `handleRightFloat` give the rounded additions for
  pieces anywhere, and `MoveFloat_eq_Move` relates the two.  The sums of
  `GetBlockPositions` are only compared with the field bounds and used as
  indices inside them; a sum that `float` rounds is beyond `2^24` and outside
  the field before and after rounding, so they are kept exact.
* `fallTimer`, `GetFrameTime()` and the mouse position are `float`s that
  are only added and compared; they are modelled by exact rationals.
* The `int` score is a 32-bit machine integer: the sum computed for
  `SetScore` is reduced to the range of `int` by `wrapInt`, which is what the
  compiled program does (signed overflow is undefined in C++).  The counter
  `lines` never exceeds `ROWS` and is a natural number.
* `grid` is the global `Color grid[ROWS][COLS]`; a C array is a function on
  its index range, so `Grid` wraps a function `row → col → Color` whose values
  outside `[0,ROWS) × [0,COLS)` are never read or written by the code.
* Drawing and audio calls only produce output and are left out; the flag
  `gameOverSoundPlayed` is kept because it is program state.
* Where a property speaks about what a loop does on the way (the calls made
  by `SetScore`, the grid indices used by `ClearLines`), the loop is given a
  second time with a record of those events (`notifyObserversCalls`,
  `ClearLinesAccessLoop`) and shown to run in step with the plain one.
* `Reachable` collects the states between two iterations of the main loop,
  starting from the state in which `main` enters the loop.
-/

namespace Treetis

/-! ## Data model -/

/-- Number of columns of the field (`const int COLS = 10`). -/
def COLS : Nat := 10

/-- Number of rows of the field (`const int ROWS = 20`). -/
def ROWS : Nat := 20

/-- The `enum TetrominoType` of the source. -/
inductive TetrominoType where
  | I
  | O
  | T
  deriving DecidableEq, Repr

/-- The `enum GameState` of the source. -/
inductive GameState where
  | MENU
  | PLAYING
  | GAME_OVER
  deriving DecidableEq, Repr

/-- A raylib `Color`: four `unsigned char` channels. -/
structure Color where
  r : Nat
  g : Nat
  b : Nat
  a : Nat
  deriving DecidableEq, Repr

/-- The value of the initialiser `{0}`: every channel zero. -/
def BLANK : Color := ⟨0, 0, 0, 0⟩

/-- The raylib constant `SKYBLUE` (`raylib.h`: 102, 191, 255, 255). -/
def SKYBLUE : Color := ⟨102, 191, 255, 255⟩

/-- The raylib constant `YELLOW` (`raylib.h`: 253, 249, 0, 255). -/
def YELLOW : Color := ⟨253, 249, 0, 255⟩

/-- The raylib constant `PURPLE` (`raylib.h`: 200, 122, 255, 255). -/
def PURPLE : Color := ⟨200, 122, 255, 255⟩

/-- The least value of a 32-bit `int`. -/
def INT_MIN : Int := -2147483648

/-- The greatest value of a 32-bit `int`. -/
def INT_MAX : Int := 2147483647

/-- The 32-bit `int` that results when the exact value `n` is stored: `n`
itself inside `[INT_MIN, INT_MAX]`, otherwise `n` reduced modulo `2^32` into
that range. -/
def wrapInt (n : Int) : Int := (n + 2147483648) % 4294967296 - 2147483648

/-- A raylib `Vector2` holding whole-number coordinates. -/
structure Vector2 where
  x : Int
  y : Int
  deriving DecidableEq, Repr

/-- The `struct Tetromino` of the source. -/
structure Tetromino where
  type : TetrominoType
  position : Vector2
  blocks : List Vector2
  color : Color
  deriving DecidableEq, Repr

/-- The global `Color grid[ROWS][COLS]`; `grid.cell y x` is `grid[y][x]`. -/
structure Grid where
  cell : Nat → Nat → Color

/-- The zero-initialised global grid (`= {0}`). -/
def emptyGrid : Grid := ⟨fun _ _ => BLANK⟩

/-- An assignment `grid[y][x] = c`. -/
def setCell (grid : Grid) (y x : Nat) (c : Color) : Grid :=
  ⟨fun r k => if r = y ∧ k = x then c else grid.cell r k⟩

/-! ## Piece -/

/-- The method `Tetromino::Move`, with exact sums: the result of its `float`
additions while the coordinates stay within `2^24` in magnitude
(`Tetromino.MoveFloat` rounds the sums). -/
def Tetromino.Move (t : Tetromino) (dir : Vector2) : Tetromino :=
  { t with position := ⟨t.position.x + dir.x, t.position.y + dir.y⟩ }

/-- The method `Tetromino::Rotate`: every block `(x, y)` becomes `(-y, x)`. -/
def Tetromino.Rotate (t : Tetromino) : Tetromino :=
  { t with blocks := t.blocks.map (fun b => ⟨-b.y, b.x⟩) }

/-- The method `Tetromino::GetBlockPositions`. -/
def Tetromino.GetBlockPositions (t : Tetromino) : List Vector2 :=
  t.blocks.map (fun b => ⟨t.position.x + b.x, t.position.y + b.y⟩)

/-- The function `CreateTetromino`. -/
def CreateTetromino (type : TetrominoType) : Tetromino :=
  match type with
  | TetrominoType.I =>
      ⟨type, ⟨4, 0⟩, [⟨0, 0⟩, ⟨1, 0⟩, ⟨-1, 0⟩, ⟨-2, 0⟩], SKYBLUE⟩
  | TetrominoType.O =>
      ⟨type, ⟨4, 0⟩, [⟨0, 0⟩, ⟨1, 0⟩, ⟨0, 1⟩, ⟨1, 1⟩], YELLOW⟩
  | TetrominoType.T =>
      ⟨type, ⟨4, 0⟩, [⟨0, 0⟩, ⟨-1, 0⟩, ⟨1, 0⟩, ⟨0, 1⟩], PURPLE⟩

/-! ## Field -/

/-- The loop of `CheckCollision` over the world cells, with its two early
returns. -/
def CheckCollisionCells (grid : Grid) : List Vector2 → Bool
  | [] => false
  | b :: rest =>
    if b.x < 0 ∨ b.x ≥ COLS ∨ b.y < 0 ∨ b.y ≥ ROWS then true
    else if (grid.cell b.y.toNat b.x.toNat).a ≠ 0 then true
    else CheckCollisionCells grid rest

/-- The function `CheckCollision`. -/
def CheckCollision (grid : Grid) (t : Tetromino) : Bool :=
  CheckCollisionCells grid t.GetBlockPositions

/-- The loop of `LockToGrid` over the world cells: a cell inside the bounds
is written, any other cell is skipped. -/
def LockCells (color : Color) : Grid → List Vector2 → Grid
  | grid, [] => grid
  | grid, b :: rest =>
    if b.y ≥ 0 ∧ b.y < ROWS ∧ b.x ≥ 0 ∧ b.x < COLS then
      LockCells color (setCell grid b.y.toNat b.x.toNat color) rest
    else LockCells color grid rest

/-- The function `LockToGrid`. -/
def LockToGrid (grid : Grid) (t : Tetromino) : Grid :=
  LockCells t.color grid t.GetBlockPositions

/-- The inner scan of `ClearLines`: row `y` is full when no column has
alpha zero (the scan stops at the first such column). -/
def rowFull (grid : Grid) (y : Nat) : Bool :=
  (List.range COLS).all (fun x => decide ((grid.cell y x).a ≠ 0))

/-- The loop `for col: grid[row][col] = grid[row - 1][col]`. -/
def copyRowAbove (grid : Grid) (row : Nat) : Grid :=
  (List.range COLS).foldl (fun g col => setCell g row col (g.cell (row - 1) col)) grid

/-- The loop `for (row = y; row > 0; row--)` around `copyRowAbove`. -/
def shiftRowsDown : Grid → Nat → Grid
  | grid, 0 => grid
  | grid, row + 1 => shiftRowsDown (copyRowAbove grid (row + 1)) row

/-- The loop `for col: grid[0][col] = {0}`. -/
def clearTopRow (grid : Grid) : Grid :=
  (List.range COLS).foldl (fun g col => setCell g 0 col BLANK) grid

/-- The body of `if (full)` in `ClearLines`, apart from the two counters:
rows `0 .. y-1` move down by one and row 0 is blanked. -/
def removeRow (grid : Grid) (y : Nat) : Grid :=
  clearTopRow (shiftRowsDown grid y)

/-- The outer loop of `ClearLines`, `for (int y = ...; y >= 0; y--)`, run
for at most `fuel` evaluations of its condition; `none` when the fuel is
used up before the loop has ended.  After a removal the body does `y++` and
the loop header `y--`, so the same index is examined again. -/
def ClearLinesLoop : Nat → Grid → Int → Nat → Option (Nat × Grid)
  | 0, _, _, _ => none
  | fuel + 1, grid, y, lines =>
    if y ≥ 0 then
      if rowFull grid y.toNat then
        ClearLinesLoop fuel (removeRow grid y.toNat) (y + 1 - 1) (lines + 1)
      else ClearLinesLoop fuel grid (y - 1) lines
    else some (lines, grid)

/-- The function `ClearLines`: the returned count and the grid it leaves.
The loop is given `2 * ROWS + 1` evaluations of its condition, which is
enough on every grid (`ClearLinesLoop_fuel`). -/
def ClearLines (grid : Grid) : Option (Nat × Grid) :=
  ClearLinesLoop (2 * ROWS + 1) grid ((ROWS : Int) - 1) 0

/-! ## Score notifier -/

/-- The class `ScoreUI`, the one implementation of `Observer`. -/
structure ScoreUI where
  currentScore : Int
  deriving DecidableEq, Repr

/-- The method `ScoreUI::OnScoreChanged`. -/
def ScoreUI.OnScoreChanged (u : ScoreUI) (newScore : Int) : ScoreUI :=
  { u with currentScore := newScore }

/-- The method `ScoreUI::Get`. -/
def ScoreUI.Get (u : ScoreUI) : Int := u.currentScore

/-- The observer objects of the program, by address: `Subject` stores
`Observer *` pointers, so the objects live outside it. -/
structure ObserverStore where
  obj : Nat → ScoreUI

/-- An update of the observer object at address `p`. -/
def ObserverStore.put (st : ObserverStore) (p : Nat) (u : ScoreUI) : ObserverStore :=
  ⟨fun q => if q = p then u else st.obj q⟩

/-- The class `Subject`: the attached observer addresses in attachment
order, and the score. -/
structure Subject where
  observers : List Nat
  score : Int
  deriving DecidableEq, Repr

/-- The method `Subject::Attach` (`push_back`). -/
def Subject.Attach (s : Subject) (obs : Nat) : Subject :=
  { s with observers := s.observers ++ [obs] }

/-- The loop `for (auto obs : observers) obs->OnScoreChanged(score)`. -/
def notifyObservers (score : Int) : ObserverStore → List Nat → ObserverStore
  | st, [] => st
  | st, obs :: rest =>
    notifyObservers score (st.put obs ((st.obj obs).OnScoreChanged score)) rest

/-- The method `Subject::SetScore`. -/
def Subject.SetScore (s : Subject) (st : ObserverStore) (newScore : Int) :
    Subject × ObserverStore :=
  ({ s with score := newScore }, notifyObservers newScore st s.observers)

/-- The method `Subject::GetScore`. -/
def Subject.GetScore (s : Subject) : Int := s.score

/-! ## Controller: one iteration of the main loop -/

/-- What one frame reads from raylib: the mouse, the keys, the frame time
and the value `(TetrominoType)GetRandomValue(0, 2)` (drawn at most once per
frame). -/
structure Input where
  mouseX : ℚ
  mouseY : ℚ
  mousePressed : Bool
  keyLeft : Bool
  keyRight : Bool
  keyUp : Bool
  keyDown : Bool
  frameTime : ℚ
  randomType : TetrominoType

/-- The variables of `main` that persist across frames, and the global
grid.  The local `ui` is the observer object at address `uiAddr`. -/
structure State where
  currentState : GameState
  gameScore : Subject
  store : ObserverStore
  current : Tetromino
  fallTimer : ℚ
  gameOverSoundPlayed : Bool
  grid : Grid

/-- The address of the local variable `ui`. -/
def uiAddr : Nat := 0

/-- The constant `fallDelay = 0.5f`. -/
def fallDelay : ℚ := 1 / 2

/-- The function `CheckButton`. -/
def CheckButton (inp : Input) (x y w h : Int) : Bool :=
  decide (inp.mouseX ≥ x ∧ inp.mouseX ≤ ((x + w : Int) : ℚ) ∧
    inp.mouseY ≥ y ∧ inp.mouseY ≤ ((y + h : Int) : ℚ)) && inp.mousePressed

/-- The loop `for x: grid[y][x] = {0}` of the Play button. -/
def resetRow (grid : Grid) (y : Nat) : Grid :=
  (List.range COLS).foldl (fun g x => setCell g y x BLANK) grid

/-- The loop `for y: for x: grid[y][x] = {0}` of the Play button. -/
def resetGrid (grid : Grid) : Grid :=
  (List.range ROWS).foldl resetRow grid

/-- The `IsKeyPressed(KEY_LEFT)` block: move left, move back if blocked. -/
def handleLeft (grid : Grid) (current : Tetromino) : Tetromino :=
  let moved := current.Move ⟨-1, 0⟩
  if CheckCollision grid moved then moved.Move ⟨1, 0⟩ else moved

/-- The `IsKeyPressed(KEY_RIGHT)` block: move right, move back if blocked. -/
def handleRight (grid : Grid) (current : Tetromino) : Tetromino :=
  let moved := current.Move ⟨1, 0⟩
  if CheckCollision grid moved then moved.Move ⟨-1, 0⟩ else moved

/-- The `IsKeyPressed(KEY_UP)` block: rotate, rotate three more times if
blocked. -/
def handleRotate (grid : Grid) (current : Tetromino) : Tetromino :=
  let turned := current.Rotate
  if CheckCollision grid turned then turned.Rotate.Rotate.Rotate else turned

/-- The piece after the three key blocks of the `PLAYING` branch, in the
order left, right, rotate. -/
def handleKeys (inp : Input) (grid : Grid) (current : Tetromino) : Tetromino :=
  let c1 := if inp.keyLeft then handleLeft grid current else current
  let c2 := if inp.keyRight then handleRight grid c1 else c1
  if inp.keyUp then handleRotate grid c2 else c2

/-- The condition `fallTimer >= fallDelay || IsKeyDown(KEY_DOWN)`, after
`fallTimer += GetFrameTime()`. -/
def fallDue (inp : Input) (s : State) : Bool :=
  decide (s.fallTimer + inp.frameTime ≥ fallDelay) || inp.keyDown

/-- The block run when the downward move is blocked; `back` is the piece
moved back up.  Lock, clear lines, add to the score in `int` arithmetic,
spawn, and go to `GAME_OVER` if the new piece collides. -/
def lockAndSpawn (inp : Input) (s : State) (back : Tetromino) : Option State :=
  match ClearLines (LockToGrid s.grid back) with
  | none => none
  | some (lines, cleared) =>
    let scored :=
      if lines > 0 then
        s.gameScore.SetScore s.store
          (wrapInt (s.gameScore.GetScore + wrapInt ((lines : Int) * 100)))
      else (s.gameScore, s.store)
    let next := CreateTetromino inp.randomType
    if CheckCollision cleared next then
      some { currentState := GameState.GAME_OVER, gameScore := scored.1,
             store := scored.2, current := next, fallTimer := 0,
             gameOverSoundPlayed := true, grid := cleared }
    else
      some { currentState := s.currentState, gameScore := scored.1,
             store := scored.2, current := next, fallTimer := 0,
             gameOverSoundPlayed := s.gameOverSoundPlayed, grid := cleared }

/-- The `MENU` branch: the Play button resets score, timer and grid, spawns
a piece and enters `PLAYING`.  (The Exit button leaves the loop and changes
no variable.) -/
def stepMenu (inp : Input) (s : State) : State :=
  if CheckButton inp 160 300 160 60 then
    let scored := s.gameScore.SetScore s.store 0
    { currentState := GameState.PLAYING, gameScore := scored.1, store := scored.2,
      current := CreateTetromino inp.randomType, fallTimer := 0,
      gameOverSoundPlayed := false, grid := resetGrid s.grid }
  else s

/-- The `PLAYING` branch: key handling, then the fall timer, then the
downward move with lock, line clearing and spawn when it is blocked. -/
def stepPlaying (inp : Input) (s : State) : Option State :=
  let c := handleKeys inp s.grid s.current
  if fallDue inp s then
    let down := c.Move ⟨0, 1⟩
    if CheckCollision s.grid down then
      lockAndSpawn inp s (down.Move ⟨0, -1⟩)
    else some { s with current := down, fallTimer := 0 }
  else some { s with current := c, fallTimer := s.fallTimer + inp.frameTime }

/-- The `GAME_OVER` branch: the Back-to-Menu button returns to `MENU`. -/
def stepGameOver (inp : Input) (s : State) : State :=
  if CheckButton inp 140 450 200 60 then { s with currentState := GameState.MENU }
  else s

/-- One iteration of the main loop of `main`; `none` only if `ClearLines`
ran out of fuel (which `step_total` excludes). -/
def step (inp : Input) (s : State) : Option State :=
  match s.currentState with
  | GameState.MENU => some (stepMenu inp s)
  | GameState.PLAYING => stepPlaying inp s
  | GameState.GAME_OVER => some (stepGameOver inp s)

/-- The state of `main` when the loop is entered: `MENU`, score 0 with `ui`
attached, timer 0, the zeroed global grid; `current` is default-initialised,
so only its empty block list is determined and the rest is a parameter. -/
def initialState (type : TetrominoType) (position : Vector2) (color : Color) : State :=
  { currentState := GameState.MENU,
    gameScore := (Subject.mk [] 0).Attach uiAddr,
    store := ⟨fun _ => ⟨0⟩⟩,
    current := ⟨type, position, [], color⟩,
    fallTimer := 0,
    gameOverSoundPlayed := false,
    grid := emptyGrid }

/-! ## Specification vocabulary for the field -/

/-- Row `y` of the grid is full: every one of the `COLS` columns is
occupied (alpha not zero). -/
def RowIsFull (grid : Grid) (y : Nat) : Prop :=
  ∀ x, x < COLS → (grid.cell y x).a ≠ 0

/-- Fullness of a row is decided by looking at its `COLS` cells. -/
instance (grid : Grid) (y : Nat) : Decidable (RowIsFull grid y) :=
  inferInstanceAs (Decidable (∀ x, x < COLS → (grid.cell y x).a ≠ 0))

/-- The contents of row `y`, columns `0 .. COLS-1`. -/
def rowCells (grid : Grid) (y : Nat) : List Color :=
  (List.range COLS).map (grid.cell y)

/-- The top `n` rows of the grid, top to bottom. -/
def gridRows (grid : Grid) (n : Nat) : List (List Color) :=
  (List.range n).map (rowCells grid)

/-- A row, given by its contents, is full. -/
def fullRow (row : List Color) : Bool :=
  row.all (fun c => decide (c.a ≠ 0))

/-- An entirely empty row. -/
def blankRow : List Color := List.replicate COLS BLANK

/-- The number of full rows among the top `n` rows. -/
def fullRowsAbove (grid : Grid) (n : Nat) : Nat :=
  ((List.range n).filter (fun y => decide (RowIsFull grid y))).length

/-- The number of full rows of the grid. -/
def fullRowCount (grid : Grid) : Nat := fullRowsAbove grid ROWS

/-! ## Specification vocabulary for the controller -/

/-- The score after a lock that cleared `lines` lines: `SetScore` is called
only when `lines > 0`, with the sum as a 32-bit `int`. -/
def scoreAfterLock (score : Int) (lines : Nat) : Int :=
  if lines > 0 then wrapInt (score + 100 * (lines : Int)) else score

/-- The tick attempts the downward move and finds it blocked, so it locks
the piece. -/
def lockOccurs (inp : Input) (s : State) : Bool :=
  fallDue inp s && CheckCollision s.grid ((handleKeys inp s.grid s.current).Move ⟨0, 1⟩)

/-- The grid right after `LockToGrid` in a tick that locks. -/
def lockedGrid (inp : Input) (s : State) : Grid :=
  LockToGrid s.grid (((handleKeys inp s.grid s.current).Move ⟨0, 1⟩).Move ⟨0, -1⟩)

/-- The number of lines `ClearLines` removed during the tick: its return
value when the tick locks, and 0 when no lock happened. -/
def linesClearedThisTick (inp : Input) (s : State) : Nat :=
  if lockOccurs inp s then
    match ClearLines (lockedGrid inp s) with
    | some (lines, _) => lines
    | none => 0
  else 0

/-! ## Concrete grids and pieces used to instantiate the theorems -/

/-- A grid whose row 10 is full, with four cells of row 9 and three cells of
row 15 occupied. -/
def gridMidFull : Grid :=
  ⟨fun r c => if r = 10 then PURPLE else if r = 9 ∧ c < 4 then SKYBLUE
    else if r = 15 ∧ c < 3 then YELLOW else BLANK⟩

/-- A frame in which the mouse is pressed on the Play button and no key is
down. -/
def inputPlay : Input :=
  { mouseX := 200, mouseY := 320, mousePressed := true, keyLeft := false,
    keyRight := false, keyUp := false, keyDown := false, frameTime := 0,
    randomType := TetrominoType.T }

/-- A frame in which only the down key is held. -/
def inputDown : Input :=
  { mouseX := 0, mouseY := 0, mousePressed := false, keyLeft := false,
    keyRight := false, keyUp := false, keyDown := true, frameTime := 0,
    randomType := TetrominoType.O }

/-- A grid whose bottom row is occupied except for columns 2 to 5. -/
def gridGap : Grid :=
  ⟨fun r c => if r = 19 ∧ (c < 2 ∨ 5 < c) then YELLOW else BLANK⟩

/-- A `PLAYING` state with score 300 in which the bar lies in the bottom
row over the gap of `gridGap`. -/
def stateBarOverGap : State :=
  { currentState := GameState.PLAYING,
    gameScore := ⟨[uiAddr], 300⟩,
    store := ⟨fun _ => ⟨300⟩⟩,
    current := (CreateTetromino TetrominoType.I).Move ⟨0, 19⟩,
    fallTimer := 0,
    gameOverSoundPlayed := false,
    grid := gridGap }

/-- A grid with row 2 occupied in columns 3 to 5, right under the spawn
area. -/
def gridUnderSpawn : Grid :=
  ⟨fun r c => if r = 2 ∧ 3 ≤ c ∧ c ≤ 5 then PURPLE else BLANK⟩

/-- A `PLAYING` state in which the square sits at the spawn position on top
of the occupied cells of `gridUnderSpawn`. -/
def stateSquareStuck : State :=
  { currentState := GameState.PLAYING,
    gameScore := ⟨[uiAddr], 0⟩,
    store := ⟨fun _ => ⟨0⟩⟩,
    current := CreateTetromino TetrominoType.O,
    fallTimer := 0,
    gameOverSoundPlayed := false,
    grid := gridUnderSpawn }

/-- The loop of `Subject::SetScore` with a record of its calls:
`(obs, score)` stands for one call `obs->OnScoreChanged(score)`, and the
record lists the calls in the order in which they are made. -/
def notifyObserversCalls (score : Int) :
    ObserverStore → List Nat → ObserverStore × List (Nat × Int)
  | st, [] => (st, [])
  | st, obs :: rest =>
    let r := notifyObserversCalls score (st.put obs ((st.obj obs).OnScoreChanged score)) rest
    (r.1, (obs, score) :: r.2)

/-- The calls `OnScoreChanged` made by `SetScore(newScore)`. -/
def Subject.SetScoreCalls (s : Subject) (st : ObserverStore) (newScore : Int) :
    List (Nat × Int) :=
  (notifyObserversCalls newScore st s.observers).2

/-- A subject to which the observer `ui` has been attached twice. -/
def subjectAttachedTwice : Subject :=
  ((Subject.mk [] 0).Attach uiAddr).Attach uiAddr

/-- The grid indices `(row, col)` read by the scan of row `y` in
`ClearLines`: columns `x, x+1, ...` up to the first empty cell, at most `n`
of them. -/
def scanAccesses (grid : Grid) (y : Int) : Nat → Nat → List (Int × Int)
  | 0, _ => []
  | n + 1, x =>
    (y, (x : Int)) ::
      (if (grid.cell y.toNat x).a = 0 then [] else scanAccesses grid y n (x + 1))

/-- The indices used by `grid[row][col] = grid[row - 1][col]` over all
columns: the cell read, then the cell written. -/
def copyRowAccesses (row : Int) : List (Int × Int) :=
  (List.range COLS).flatMap (fun (col : Nat) => [(row - 1, (col : Int)), (row, (col : Int))])

/-- The indices used by the loop `for (row = y; row > 0; row--)`. -/
def shiftAccesses : Nat → List (Int × Int)
  | 0 => []
  | row + 1 => copyRowAccesses ((row + 1 : Nat) : Int) ++ shiftAccesses row

/-- The indices written by `for col: grid[0][col] = {0}`. -/
def clearTopAccesses : List (Int × Int) :=
  (List.range COLS).map (fun (col : Nat) => ((0 : Int), (col : Int)))

/-- The outer loop of `ClearLines` again, this time collecting every grid
index it uses, in order; the control flow is that of `ClearLinesLoop`. -/
def ClearLinesAccessLoop : Nat → Grid → Int → List (Int × Int) → Option (List (Int × Int))
  | 0, _, _, _ => none
  | fuel + 1, grid, y, acc =>
    if y ≥ 0 then
      if rowFull grid y.toNat then
        ClearLinesAccessLoop fuel (removeRow grid y.toNat) (y + 1 - 1)
          (acc ++ scanAccesses grid y COLS 0 ++ shiftAccesses y.toNat ++ clearTopAccesses)
      else ClearLinesAccessLoop fuel grid (y - 1) (acc ++ scanAccesses grid y COLS 0)
    else some acc

/-- Every grid index used by one call of `ClearLines`. -/
def ClearLinesAccesses (grid : Grid) : Option (List (Int × Int)) :=
  ClearLinesAccessLoop (2 * ROWS + 1) grid ((ROWS : Int) - 1) []

/-- An index pair lies inside the array `grid[ROWS][COLS]`. -/
def inGrid (a : Int × Int) : Prop :=
  0 ≤ a.1 ∧ a.1 < ROWS ∧ 0 ≤ a.2 ∧ a.2 < COLS

/-! ## Runs of the controller -/

/-- The states the program can be in between two iterations of the main
loop: the state in which the loop is entered, and every state one iteration
leads to from such a state, whatever the frame's input. -/
inductive Reachable : State → Prop where
  | initial (type : TetrominoType) (position : Vector2) (color : Color) :
      Reachable (initialState type position color)
  | next (inp : Input) (s s' : State) :
      Reachable s → step inp s = some s' → Reachable s'

/-- Several iterations of the main loop, one per input of the list. -/
def runTicks : List Input → State → Option State
  | [], s => some s
  | inp :: rest, s => (step inp s).bind (runTicks rest)

/-- The piece is free in the grid and is a proper piece: four distinct
blocks and a visible color. -/
def PieceOk (grid : Grid) (t : Tetromino) : Prop :=
  CheckCollision grid t = false ∧ t.blocks.length = 4 ∧ t.blocks.Nodup ∧ t.color.a ≠ 0

/-- What holds between any two iterations of the main loop: the grid has no
full row, the score is a value of `int`, and while `PLAYING` the current
piece is free in the grid. -/
def Inv (s : State) : Prop :=
  (∀ y, y < ROWS → ¬ RowIsFull s.grid y)
  ∧ (INT_MIN ≤ s.gameScore.GetScore ∧ s.gameScore.GetScore ≤ INT_MAX)
  ∧ (s.currentState = GameState.PLAYING → PieceOk s.grid s.current)

/-- The states reached from the initial state by iterations of the main
loop none of which takes the score beyond `INT_MAX`. -/
inductive ReachableInRange : State → Prop where
  | initial (type : TetrominoType) (position : Vector2) (color : Color) :
      ReachableInRange (initialState type position color)
  | next (inp : Input) (s s' : State) :
      ReachableInRange s →
      (s.currentState = GameState.PLAYING →
        s.gameScore.GetScore + 100 * (linesClearedThisTick inp s : Int) ≤ INT_MAX) →
      step inp s = some s' → ReachableInRange s'


/-- The number of occupied cells of the 10x20 grid. -/
def occupiedCount (grid : Grid) : Nat :=
  ((Finset.range ROWS ×ˢ Finset.range COLS).filter
    (fun p => (grid.cell p.1 p.2).a ≠ 0)).card

/-- The state right after the Play button is hit in the initial state. -/
def statePlayStarted : State :=
  stepMenu inputPlay (initialState TetrominoType.I ⟨0, 0⟩ BLANK)

/-- The bar of `CreateTetromino(I)` with its origin moved to `(4, row)`. -/
def barAt (row : Int) : Tetromino :=
  { CreateTetromino TetrominoType.I with position := ⟨4, row⟩ }

/-- Every tick of the run carries no left, right or rotate key and attempts
the downward move: the fall is due in the state the tick starts from. -/
def attemptsDownEachTick : List Input → State → Prop
  | [], _ => True
  | inp :: rest, s =>
    inp.keyLeft = false ∧ inp.keyRight = false ∧ inp.keyUp = false
      ∧ fallDue inp s = true
      ∧ ∀ s', step inp s = some s' → attemptsDownEachTick rest s'

/-- A `PLAYING` state with the blank grid and the bar at the spawn
position. -/
def stateBarAtTop : State :=
  { currentState := GameState.PLAYING,
    gameScore := ⟨[uiAddr], 700⟩,
    store := ⟨fun _ => ⟨700⟩⟩,
    current := CreateTetromino TetrominoType.I,
    fallTimer := 0,
    gameOverSoundPlayed := false,
    grid := emptyGrid }

/-- A frame in which the Play button is hit and the random draw is the
bar. -/
def inputPlayBar : Input := { inputPlay with randomType := TetrominoType.I }

/-- The state right after the Play button is hit in the initial state, the
bar being drawn. -/
def stateBarStarted : State :=
  stepMenu inputPlayBar (initialState TetrominoType.I ⟨0, 0⟩ BLANK)

/-- The state after the bar of `stateBarStarted` has fallen to row 19. -/
def stateBarAtBottom : State :=
  { stateBarStarted with current := barAt 19, fallTimer := 0 }

/-! ## A run of the game that overflows the score -/

/-- The square of `CreateTetromino(O)` with its origin moved to `(x, y)`. -/
def squareAt (x y : Int) : Tetromino :=
  { CreateTetromino TetrominoType.O with position := ⟨x, y⟩ }

/-- A frame with the left and down keys held; the random draw is the
square. -/
def inputLeftDown : Input := { inputDown with keyLeft := true }

/-- A frame with the right and down keys held; the random draw is the
square. -/
def inputRightDown : Input := { inputDown with keyRight := true }

/-- A frame in which the Play button is hit and the random draw is the
square. -/
def inputPlaySquare : Input := { inputPlay with randomType := TetrominoType.O }

/-- The grid after `j` squares have been locked side by side on the floor,
in columns `0 .. 2j-1` of rows 18 and 19. -/
def gridSquares : Nat → Grid
  | 0 => emptyGrid
  | j + 1 => LockToGrid (gridSquares j) (squareAt (2 * (j : Int)) 18)

/-- The 18 ticks that bring a fresh square down to the floor in columns
`2j` and `2j + 1`: for each tick the input and the place of the square after
it.  The square moves one column sideways per tick until it is over its
place, and one row down in every tick. -/
def squarePath (j : Nat) : List (Input × Tetromino) :=
  (List.range 18).map (fun (i : Nat) =>
    if 2 * j < 4 then
      (if i < 4 - 2 * j then inputLeftDown else inputDown,
        squareAt (max (2 * (j : Int)) (4 - ((i : Int) + 1))) ((i : Int) + 1))
    else
      (if i < 2 * j - 4 then inputRightDown else inputDown,
        squareAt (min (2 * (j : Int)) (4 + ((i : Int) + 1))) ((i : Int) + 1)))

/-- Check of a falling path in a grid: every tick holds the down key, its
key handling followed by one row down leads from the piece before to the
listed piece, and the listed piece is free in the grid. -/
def fallPathOk (grid : Grid) : Tetromino → List (Input × Tetromino) → Bool
  | _, [] => true
  | p, (inp, q) :: rest =>
    inp.keyDown && decide ((handleKeys inp grid p).Move ⟨0, 1⟩ = q)
      && !(CheckCollision grid q) && fallPathOk grid q rest

/-- The last piece of a falling path. -/
def pathEnd : Tetromino → List (Input × Tetromino) → Tetromino
  | p, [] => p
  | _, (_, q) :: rest => pathEnd q rest

/-- A reachable `PLAYING` state with score `v` in which `j` squares lie on
the floor and a fresh square is at the spawn position. -/
def AtRound (j : Nat) (v : Int) (s : State) : Prop :=
  Reachable s ∧ s.currentState = GameState.PLAYING
    ∧ s.current = CreateTetromino TetrominoType.O
    ∧ s.grid = gridSquares j ∧ s.gameScore.GetScore = v

/-- A reachable `PLAYING` state with score `v` in which `j` squares lie on
the floor and the current square rests on the floor next to them. -/
def OnFloor (j : Nat) (v : Int) (s : State) : Prop :=
  Reachable s ∧ s.currentState = GameState.PLAYING
    ∧ s.current = squareAt (2 * (j : Int)) 18
    ∧ s.grid = gridSquares j ∧ s.gameScore.GetScore = v

/-- A state with score 2147483600 in which four squares lie on the floor
and the fifth rests on the floor next to them. -/
def stateFifthSquareNearMax : State :=
  { currentState := GameState.PLAYING,
    gameScore := ⟨[uiAddr], 2147483600⟩,
    store := ⟨fun _ => ⟨2147483600⟩⟩,
    current := squareAt 8 18,
    fallTimer := 0,
    gameOverSoundPlayed := false,
    grid := gridSquares 4 }

/-- The state right after the Play button is hit in the initial state, the
square being drawn. -/
def stateSquareStarted : State :=
  stepMenu inputPlaySquare (initialState TetrominoType.I ⟨0, 0⟩ BLANK)

/-- The first game at score 0 with `j` squares locked on the floor and the
current piece `p`. -/
def stateSquares (j : Nat) (p : Tetromino) : State :=
  { stateSquareStarted with current := p, grid := gridSquares j }

/-- The first game right after its fifth square has completed rows 18 and
19: both rows are cleared, `SetScore(200)` has run, and a fresh square is at
the spawn position. -/
def stateRoundDone : State :=
  { stateSquareStarted with
    gameScore := (stateSquareStarted.gameScore.SetScore stateSquareStarted.store 200).1,
    store := (stateSquareStarted.gameScore.SetScore stateSquareStarted.store 200).2,
    current := CreateTetromino TetrominoType.O,
    grid := emptyGrid }

/-! ## Piece coordinates as `float` -/

/-- A value inside the range of `int` is stored as it is. -/
theorem wrapInt_of_inRange (n : Int) (h1 : INT_MIN ≤ n) (h2 : n ≤ INT_MAX) : wrapInt n = n := by
  unfold wrapInt
  unfold INT_MIN at h1
  unfold INT_MAX at h2
  omega

/-- A stored value lies inside the range of `int`. -/
theorem wrapInt_inRange (n : Int) : INT_MIN ≤ wrapInt n ∧ wrapInt n ≤ INT_MAX := by
  unfold wrapInt INT_MIN INT_MAX
  omega

/-- Storing an intermediate result does not change the stored sum. -/
theorem wrapInt_add_wrapInt (a b : Int) : wrapInt (a + wrapInt b) = wrapInt (a + b) := by
  unfold wrapInt
  omega

theorem wrapInt_wrapInt_add (a b : Int) : wrapInt (wrapInt a + b) = wrapInt (a + b) := by
  unfold wrapInt
  omega

/-! ## The field operations, cell by cell -/

theorem cell_setCell (g : Grid) (y x : Nat) (c : Color) (r k : Nat) :
    (setCell g y x c).cell r k = if r = y ∧ k = x then c else g.cell r k := rfl

/-- Writing columns `0 .. n-1` of row `row`, each with a value read from a
different row `src` of the current grid. -/
theorem cell_foldl_copy (g : Grid) (row src n : Nat) (h : src ≠ row) (r k : Nat) :
    ((List.range n).foldl (fun g col => setCell g row col (g.cell src col)) g).cell r k
      = if r = row ∧ k < n then g.cell src k else g.cell r k := by
  induction n generalizing r k with
  | zero => simp
  | succ n ih =>
    rw [List.range_succ, List.foldl_append]
    simp only [List.foldl_cons, List.foldl_nil, cell_setCell]
    rw [ih, ih]
    simp only [h, false_and, if_false]
    by_cases h1 : r = row
    · by_cases h2 : k = n
      · simp [h1, h2]
      · have : (k < n + 1) = (k < n) := by
          apply propext; omega
        simp [h1, h2, this]
    · simp [h1]

/-- Writing a constant into columns `0 .. n-1` of row `row`. -/
theorem cell_foldl_const (g : Grid) (row n : Nat) (c : Color) (r k : Nat) :
    ((List.range n).foldl (fun g col => setCell g row col c) g).cell r k
      = if r = row ∧ k < n then c else g.cell r k := by
  induction n generalizing r k with
  | zero => simp
  | succ n ih =>
    rw [List.range_succ, List.foldl_append]
    simp only [List.foldl_cons, List.foldl_nil, cell_setCell]
    rw [ih]
    by_cases h1 : r = row
    · by_cases h2 : k = n
      · simp [h1, h2]
      · have : (k < n + 1) = (k < n) := by
          apply propext; omega
        simp [h1, h2, this]
    · simp [h1]

theorem cell_copyRowAbove (g : Grid) (row : Nat) (r k : Nat) :
    (copyRowAbove g (row + 1)).cell r k
      = if r = row + 1 ∧ k < COLS then g.cell row k else g.cell r k := by
  unfold copyRowAbove
  have := cell_foldl_copy g (row + 1) row COLS (by omega) r k
  simpa using this

theorem cell_shiftRowsDown (g : Grid) (y : Nat) (r k : Nat) :
    (shiftRowsDown g y).cell r k
      = if 1 ≤ r ∧ r ≤ y ∧ k < COLS then g.cell (r - 1) k else g.cell r k := by
  induction y generalizing g r k with
  | zero =>
    simp only [shiftRowsDown]
    have : ¬ (1 ≤ r ∧ r ≤ 0 ∧ k < COLS) := by omega
    rw [if_neg this]
  | succ y ih =>
    simp only [shiftRowsDown]
    rw [ih, cell_copyRowAbove, cell_copyRowAbove]
    by_cases hk : k < COLS
    · by_cases h1 : 1 ≤ r ∧ r ≤ y
      · have h2 : ¬ (r - 1 = y + 1) := by omega
        have h3 : 1 ≤ r ∧ r ≤ y + 1 := by omega
        simp [hk, h1, h2, h3]
      · by_cases h4 : r = y + 1
        · subst h4
          simp [hk]
        · have h5 : ¬ (1 ≤ r ∧ r ≤ y + 1) := by omega
          simp [hk, h1, h4, h5]
    · simp [hk]

theorem cell_clearTopRow (g : Grid) (r k : Nat) :
    (clearTopRow g).cell r k = if r = 0 ∧ k < COLS then BLANK else g.cell r k := by
  unfold clearTopRow
  exact cell_foldl_const g 0 COLS BLANK r k

/-- The grid after the removal of row `y`, cell by cell. -/
theorem cell_removeRow (g : Grid) (y : Nat) (r k : Nat) :
    (removeRow g y).cell r k
      = if k < COLS then
          (if r = 0 then BLANK else if r ≤ y then g.cell (r - 1) k else g.cell r k)
        else g.cell r k := by
  unfold removeRow
  rw [cell_clearTopRow, cell_shiftRowsDown]
  by_cases hk : k < COLS
  · by_cases h0 : r = 0
    · simp [hk, h0]
    · by_cases h1 : r ≤ y
      · have : 1 ≤ r := by omega
        simp [hk, h0, h1, this]
      · simp [hk, h0, h1]
  · simp [hk]

theorem rowFull_iff (g : Grid) (y : Nat) : rowFull g y = true ↔ RowIsFull g y := by
  unfold rowFull RowIsFull
  simp [List.all_eq_true]

/-! ## The field as a list of rows -/

theorem rowCells_congr (g g' : Grid) (y y' : Nat)
    (h : ∀ k, k < COLS → g'.cell y' k = g.cell y k) : rowCells g' y' = rowCells g y := by
  unfold rowCells
  apply List.map_congr_left
  intro k hk
  exact h k (List.mem_range.mp hk)

theorem fullRow_rowCells (g : Grid) (y : Nat) :
    fullRow (rowCells g y) = decide (RowIsFull g y) := by
  rw [Bool.eq_iff_iff]
  unfold fullRow rowCells RowIsFull
  simp [List.all_eq_true]

theorem fullRow_blankRow : fullRow blankRow = false := by decide

theorem gridRows_succ (g : Grid) (n : Nat) :
    gridRows g (n + 1) = gridRows g n ++ [rowCells g n] := by
  unfold gridRows
  rw [List.range_succ, List.map_append]
  rfl

theorem gridRows_congr (g g' : Grid) (n : Nat)
    (h : ∀ r k, r < n → k < COLS → g'.cell r k = g.cell r k) : gridRows g' n = gridRows g n := by
  unfold gridRows
  apply List.map_congr_left
  intro r hr
  exact rowCells_congr g g' r r (fun k hk => h r k (List.mem_range.mp hr) hk)

theorem rowCells_removeRow_zero (g : Grid) (y : Nat) :
    rowCells (removeRow g y) 0 = blankRow := by
  unfold rowCells blankRow
  apply List.ext_getElem
  · simp
  · intro i h1 h2
    simp only [List.length_map, List.length_range] at h1
    simp [cell_removeRow, h1]

theorem gridRows_removeRow (g : Grid) (m : Nat) :
    gridRows (removeRow g m) (m + 1) = blankRow :: gridRows g m := by
  unfold gridRows
  rw [List.range_succ_eq_map, List.map_cons, rowCells_removeRow_zero, List.map_map]
  congr 1
  apply List.map_congr_left
  intro r hr
  have hr' := List.mem_range.mp hr
  apply rowCells_congr
  intro k hk
  rw [cell_removeRow]
  have : r + 1 ≤ m := hr'
  simp [hk, this]

theorem fullRowsAbove_eq (g : Grid) (n : Nat) :
    fullRowsAbove g n = (gridRows g n).countP fullRow := by
  unfold fullRowsAbove gridRows
  rw [List.countP_eq_length_filter, List.filter_map, List.length_map]
  congr 2
  funext y
  simp [Function.comp, fullRow_rowCells]

/-! ## The outer loop of `ClearLines` -/

/-- The outer loop of `ClearLines` started at index `n - 1`: with more
fuel than `n` plus the number of full rows among the top `n` rows it ends,
adds that number to the count, compacts the top `n` rows and leaves every
other cell alone. -/
theorem ClearLinesLoop_spec (fuel : Nat) : ∀ (n : Nat) (g : Grid) (lines : Nat),
    n + (gridRows g n).countP fullRow < fuel →
    ∃ g', ClearLinesLoop fuel g ((n : Int) - 1) lines
        = some (lines + (gridRows g n).countP fullRow, g')
      ∧ gridRows g' n = List.replicate ((gridRows g n).countP fullRow) blankRow
          ++ (gridRows g n).filter (fun row => !fullRow row)
      ∧ (∀ r k, n ≤ r → g'.cell r k = g.cell r k)
      ∧ (∀ r k, COLS ≤ k → g'.cell r k = g.cell r k) := by
  induction fuel with
  | zero => intro n g lines h; omega
  | succ fuel ih =>
    intro n g lines hf
    cases n with
    | zero =>
      refine ⟨g, ?_, ?_, fun _ _ _ => rfl, fun _ _ _ => rfl⟩
      · simp [ClearLinesLoop, gridRows]
      · simp [gridRows]
    | succ m =>
      have hy : ((m + 1 : Nat) : Int) - 1 = (m : Int) := by push_cast; ring
      have hge : (m : Int) ≥ 0 := Int.natCast_nonneg m
      rw [hy]
      unfold ClearLinesLoop
      rw [if_pos hge, Int.toNat_natCast]
      rw [gridRows_succ] at hf ⊢
      rw [List.countP_append, List.filter_append] at *
      by_cases hfull : rowFull g m = true
      · rw [if_pos hfull]
        have hfr : fullRow (rowCells g m) = true := by
          rw [fullRow_rowCells]; simpa using (rowFull_iff g m).mp hfull
        have hc1 : List.countP fullRow [rowCells g m] = 1 := by
          simp [List.countP_cons, hfr]
        have hf1 : List.filter (fun row => !fullRow row) [rowCells g m] = [] := by
          simp [List.filter_cons, hfr]
        rw [hc1] at hf ⊢
        rw [hf1, List.append_nil]
        have hrows := gridRows_removeRow g m
        have hcnt : (gridRows (removeRow g m) (m + 1)).countP fullRow
            = (gridRows g m).countP fullRow := by
          rw [hrows, List.countP_cons, fullRow_blankRow]; simp
        have hy2 : (m : Int) + 1 - 1 = ((m + 1 : Nat) : Int) - 1 := by push_cast; ring
        rw [hy2]
        obtain ⟨g', h1, h2, h3, h4⟩ := ih (m + 1) (removeRow g m) (lines + 1)
          (by rw [hcnt]; omega)
        refine ⟨g', ?_, ?_, ?_, ?_⟩
        · rw [h1, hcnt]
          congr 2
          omega
        · rw [h2, hcnt, hrows, List.filter_cons, fullRow_blankRow]
          simp [List.replicate_succ', List.append_assoc]
        · intro r k hr
          rw [h3 r k hr, cell_removeRow]
          have h5 : ¬ r = 0 := by omega
          have h6 : ¬ r ≤ m := by omega
          simp [h5, h6]
        · intro r k hk
          rw [h4 r k hk, cell_removeRow]
          have : ¬ k < COLS := by omega
          simp [this]
      · rw [if_neg hfull]
        have hfr : fullRow (rowCells g m) = false := by
          rw [fullRow_rowCells]
          have : ¬ RowIsFull g m := fun h => hfull ((rowFull_iff g m).mpr h)
          simpa using this
        have hc1 : List.countP fullRow [rowCells g m] = 0 := by
          simp [List.countP_cons, hfr]
        have hf1 : List.filter (fun row => !fullRow row) [rowCells g m] = [rowCells g m] := by
          simp [List.filter_cons, hfr]
        rw [hc1] at hf ⊢
        rw [hf1, Nat.add_zero]
        obtain ⟨g', h1, h2, h3, h4⟩ := ih m g lines (by omega)
        refine ⟨g', h1, ?_, ?_, h4⟩
        · rw [gridRows_succ, h2, List.append_assoc]
          congr 2
          rw [rowCells_congr g g' m m (fun k _ => h3 m k (Nat.le_refl m))]
        · intro r k hr
          exact h3 r k (by omega)

/-- One evaluation of the loop condition and, when it holds, of the body. -/
theorem ClearLinesLoop_succ (fuel : Nat) (g : Grid) (y : Int) (lines : Nat) :
    ClearLinesLoop (fuel + 1) g y lines
      = if y ≥ 0 then
          if rowFull g y.toNat then
            ClearLinesLoop fuel (removeRow g y.toNat) (y + 1 - 1) (lines + 1)
          else ClearLinesLoop fuel g (y - 1) lines
        else some (lines, g) := rfl

/-- The loop passes over a run of `d` rows that are not full, from index
`a + d - 1` up to index `a`, using one unit of fuel per row and changing
nothing. -/
theorem ClearLinesLoop_skip (d : Nat) : ∀ (fuel a : Nat) (g : Grid) (lines : Nat),
    (∀ y, a ≤ y → y < a + d → ¬ RowIsFull g y) →
    ClearLinesLoop (fuel + d) g (((a + d : Nat) : Int) - 1) lines
      = ClearLinesLoop fuel g ((a : Int) - 1) lines := by
  induction d with
  | zero => intro fuel a g lines _; rfl
  | succ d ih =>
    intro fuel a g lines h
    have hy : ((a + (d + 1) : Nat) : Int) - 1 = ((a + d : Nat) : Int) := by push_cast; ring
    have hge : ((a + d : Nat) : Int) ≥ 0 := Int.natCast_nonneg _
    have hnf : ¬ rowFull g (a + d) = true := fun hf =>
      h (a + d) (by omega) (by omega) ((rowFull_iff g (a + d)).mp hf)
    rw [hy, ← Nat.add_assoc, ClearLinesLoop_succ, if_pos hge, Int.toNat_natCast, if_neg hnf]
    exact ih fuel a g lines (fun y h1 h2 => h y h1 (by omega))

/-- Once the loop variable is below zero the loop ends at once. -/
theorem ClearLinesLoop_done (fuel : Nat) (g : Grid) (lines : Nat) :
    ClearLinesLoop (fuel + 1) g (((0 : Nat) : Int) - 1) lines = some (lines, g) := by
  simp [ClearLinesLoop]

/-- More fuel does not change a result the loop has already produced. -/
theorem ClearLinesLoop_mono (fuel : Nat) : ∀ (g : Grid) (y : Int) (lines : Nat)
    (res : Nat × Grid), ClearLinesLoop fuel g y lines = some res →
    ClearLinesLoop (fuel + 1) g y lines = some res := by
  induction fuel with
  | zero => intro g y lines res h; simp [ClearLinesLoop] at h
  | succ fuel ih =>
    intro g y lines res h
    unfold ClearLinesLoop at h ⊢
    by_cases hy : y ≥ 0
    · rw [if_pos hy] at h ⊢
      by_cases hf : rowFull g y.toNat = true
      · rw [if_pos hf] at h ⊢
        exact ih _ _ _ _ h
      · rw [if_neg hf] at h ⊢
        exact ih _ _ _ _ h
    · rw [if_neg hy] at h ⊢
      exact h

theorem countP_gridRows_le (g : Grid) (n : Nat) : (gridRows g n).countP fullRow ≤ n := by
  have := List.countP_le_length fullRow (l := gridRows g n)
  simpa [gridRows] using this

/-- The function `ClearLines` on an arbitrary grid: it returns, with the
number of full rows as its count, and compacts the rows. -/
theorem ClearLines_spec (g : Grid) :
    ∃ g', ClearLines g = some (fullRowCount g, g')
      ∧ gridRows g' ROWS = List.replicate (fullRowCount g) blankRow
          ++ (gridRows g ROWS).filter (fun row => !fullRow row)
      ∧ (∀ r k, ROWS ≤ r → g'.cell r k = g.cell r k)
      ∧ (∀ r k, COLS ≤ k → g'.cell r k = g.cell r k) := by
  have hle := countP_gridRows_le g ROWS
  obtain ⟨g', h1, h2, h3, h4⟩ := ClearLinesLoop_spec (2 * ROWS + 1) ROWS g 0 (by omega)
  refine ⟨g', ?_, ?_, h3, h4⟩
  · unfold ClearLines fullRowCount
    rw [h1, fullRowsAbove_eq, Nat.zero_add]
  · unfold fullRowCount
    rw [h2, fullRowsAbove_eq]

/-- Any larger fuel gives the loop of `ClearLines` the same result. -/
theorem ClearLinesLoop_fuel (g : Grid) (extra : Nat) :
    ClearLinesLoop (2 * ROWS + 1 + extra) g ((ROWS : Int) - 1) 0 = ClearLines g := by
  obtain ⟨g', h, _⟩ := ClearLines_spec g
  induction extra with
  | zero => rfl
  | succ e ih =>
    rw [h] at ih ⊢
    exact ClearLinesLoop_mono _ _ _ _ _ ih

/-- C1: on every grid `ClearLines` returns, and the count it returns is the
number of full rows of the input grid, that is the size of the set of row
indices below `ROWS` all of whose `COLS` columns have alpha not zero,
wherever those rows are and whether or not they are adjacent. -/
theorem ClearLines_returns_fullRowCount (g : Grid) :
    ∃ g', ClearLines g = some (fullRowCount g, g')
      ∧ fullRowCount g = ((Finset.range ROWS).filter (fun y => RowIsFull g y)).card := by
  obtain ⟨g', h, _⟩ := ClearLines_spec g
  exact ⟨g', h, rfl⟩

/-- C2: on every grid with `k` full rows, the rows of the grid left by
`ClearLines` are `k` blank rows followed by the rows of the input grid that
are not full, in their original top-to-bottom order and with their contents
unchanged. -/
theorem ClearLines_compacts (g : Grid) :
    ∃ n g', ClearLines g = some (n, g')
      ∧ gridRows g' ROWS = List.replicate (fullRowCount g) blankRow
          ++ (gridRows g ROWS).filter (fun row => !fullRow row) := by
  obtain ⟨g', h1, h2, _⟩ := ClearLines_spec g
  exact ⟨_, g', h1, h2⟩

/-- When row `r` is the only full row, `ClearLines` performs exactly one
removal, that of row `r`. -/
theorem ClearLines_single (g : Grid) (r : Nat) (hr : r < ROWS) (hfull : RowIsFull g r)
    (hothers : ∀ y, y < ROWS → y ≠ r → ¬ RowIsFull g y) :
    ClearLines g = some (1, removeRow g r) := by
  unfold ClearLines
  have hR : ROWS = 20 := rfl
  have e1 : 2 * ROWS + 1 = ((19 + 1) + (r + 1) + 1) + (ROWS - (r + 1)) := by omega
  have e2 : ROWS = (r + 1) + (ROWS - (r + 1)) := by omega
  have hskip := ClearLinesLoop_skip (ROWS - (r + 1)) ((19 + 1) + (r + 1) + 1) (r + 1) g 0
    (fun y h1 h2 => hothers y (by omega) (by omega))
  rw [← e2] at hskip
  rw [e1, hskip]
  have hy : ((r + 1 : Nat) : Int) - 1 = (r : Int) := by push_cast; ring
  have hge : (r : Int) ≥ 0 := Int.natCast_nonneg r
  rw [hy, ClearLinesLoop_succ, if_pos hge, Int.toNat_natCast,
    if_pos ((rowFull_iff g r).mpr hfull)]
  have hy2 : (r : Int) + 1 - 1 = (((0 + (r + 1) : Nat)) : Int) - 1 := by push_cast; ring
  rw [hy2]
  have hskip2 := ClearLinesLoop_skip (r + 1) (19 + 1) 0 (removeRow g r) (0 + 1) (by
    intro y _ h2 hf
    have h0 := hf 0 (by decide)
    rw [cell_removeRow] at h0
    by_cases hy0 : y = 0
    · simp [hy0, COLS, BLANK] at h0
    · have hle : y ≤ r := by omega
      have hcol : (0 : Nat) < COLS := by decide
      apply hothers (y - 1) (by omega) (by omega)
      intro x hx
      have hx' := hf x hx
      rw [cell_removeRow] at hx'
      simpa [hx, hy0, hle] using hx')
  rw [hskip2]
  exact ClearLinesLoop_done 19 _ _

/-- C3: when exactly one row `r`, with `1 ≤ r ≤ 19`, is full, `ClearLines`
returns 1; afterwards row `r` holds what row `r - 1` held before, and row 0
is blank. -/
theorem ClearLines_one_full_row (g : Grid) (r : Nat) (h1 : 1 ≤ r) (h19 : r ≤ 19)
    (hfull : RowIsFull g r) (hothers : ∀ y, y < ROWS → y ≠ r → ¬ RowIsFull g y) :
    ∃ g', ClearLines g = some (1, g')
      ∧ (∀ x, x < COLS → g'.cell r x = g.cell (r - 1) x)
      ∧ (∀ x, x < COLS → g'.cell 0 x = BLANK) := by
  refine ⟨removeRow g r, ClearLines_single g r (by unfold ROWS; omega) hfull hothers, ?_, ?_⟩
  · intro x hx
    rw [cell_removeRow]
    have : ¬ r = 0 := by omega
    simp [hx, this]
  · intro x hx
    rw [cell_removeRow]
    simp [hx]

/-- Witness for C3: row 10 is the only full row of `gridMidFull`. -/
theorem ClearLines_one_full_row_witness :
    (1 ≤ 10 ∧ 10 ≤ 19 ∧ RowIsFull gridMidFull 10
      ∧ ∀ y, y < ROWS → y ≠ 10 → ¬ RowIsFull gridMidFull y)
    ∧ ∃ g', ClearLines gridMidFull = some (1, g')
      ∧ (∀ x, x < COLS → g'.cell 10 x = gridMidFull.cell (10 - 1) x)
      ∧ (∀ x, x < COLS → g'.cell 0 x = BLANK) :=
  ⟨⟨by decide, by decide, by decide, by decide⟩,
    ClearLines_one_full_row gridMidFull 10 (by decide) (by decide) (by decide) (by decide)⟩

/-- C4: a row `y` lies strictly below the lowest full row, or the grid has
no full row at all, exactly when no row from `y` downwards is full.
`ClearLines` leaves every such row unchanged cell for cell; with `y = 0` (no
row is full) that is the whole grid. -/
theorem ClearLines_below_unchanged (g : Grid) (y : Nat) (hy : y < ROWS)
    (h : ∀ y2, y2 < ROWS → y ≤ y2 → ¬ RowIsFull g y2) :
    ∃ n g', ClearLines g = some (n, g')
      ∧ ∀ y2 x, y ≤ y2 → g'.cell y2 x = g.cell y2 x := by
  have e1 : 2 * ROWS + 1 = (ROWS + 1 + y) + (ROWS - y) := by omega
  have e2 : ROWS = y + (ROWS - y) := by omega
  have hskip := ClearLinesLoop_skip (ROWS - y) (ROWS + 1 + y) y g 0
    (fun y2 h1 h2 => h y2 (by omega) h1)
  rw [← e2] at hskip
  have hle := countP_gridRows_le g y
  obtain ⟨g', h1, _, h3, _⟩ := ClearLinesLoop_spec (ROWS + 1 + y) y g 0 (by omega)
  refine ⟨0 + (gridRows g y).countP fullRow, g', ?_, fun y2 x hy2 => h3 y2 x hy2⟩
  unfold ClearLines
  rw [e1, hskip, h1]

/-- Witness for C4: rows 11 to 19 of `gridMidFull` lie below its full row. -/
theorem ClearLines_below_unchanged_witness :
    (11 < ROWS ∧ ∀ y2, y2 < ROWS → 11 ≤ y2 → ¬ RowIsFull gridMidFull y2)
    ∧ ∃ n g', ClearLines gridMidFull = some (n, g')
      ∧ ∀ y2 x, 11 ≤ y2 → g'.cell y2 x = gridMidFull.cell y2 x :=
  ⟨⟨by decide, by decide⟩, ClearLines_below_unchanged gridMidFull 11 (by decide) (by decide)⟩

/-! ## Collision, locking and rotation -/

/-- The loop of `CheckCollision`: it answers true exactly when some cell of
the list is out of bounds or on an occupied grid cell. -/
theorem CheckCollisionCells_iff (g : Grid) (cells : List Vector2) :
    CheckCollisionCells g cells = true ↔
      ∃ p ∈ cells, p.x < 0 ∨ p.x ≥ COLS ∨ p.y < 0 ∨ p.y ≥ ROWS
        ∨ (g.cell p.y.toNat p.x.toNat).a ≠ 0 := by
  induction cells with
  | nil => simp [CheckCollisionCells]
  | cons b rest ih =>
    unfold CheckCollisionCells
    by_cases h1 : b.x < 0 ∨ b.x ≥ COLS ∨ b.y < 0 ∨ b.y ≥ ROWS
    · rw [if_pos h1]
      simp only [true_iff]
      refine ⟨b, List.mem_cons_self _ _, ?_⟩
      tauto
    · rw [if_neg h1]
      by_cases h2 : (g.cell b.y.toNat b.x.toNat).a ≠ 0
      · rw [if_pos h2]
        simp only [true_iff]
        exact ⟨b, List.mem_cons_self _ _, by tauto⟩
      · rw [if_neg h2, ih]
        constructor
        · rintro ⟨p, hp, h⟩
          exact ⟨p, List.mem_cons_of_mem _ hp, h⟩
        · rintro ⟨p, hp, h⟩
          rcases List.mem_cons.mp hp with rfl | hp
          · exfalso; tauto
          · exact ⟨p, hp, h⟩

/-- C5: `CheckCollision` returns true if and only if some world cell
`(col, row)` of the piece (origin plus offset) has `col < 0`, `col ≥ 10`,
`row < 0`, `row ≥ 20`, or lies in bounds on an occupied grid cell; and some
world cell is out of bounds exactly when the result is true whatever the
grid holds. -/
theorem CheckCollision_iff (g : Grid) (t : Tetromino) :
    (CheckCollision g t = true ↔
      ∃ b ∈ t.blocks,
        t.position.x + b.x < 0 ∨ t.position.x + b.x ≥ 10
        ∨ t.position.y + b.y < 0 ∨ t.position.y + b.y ≥ 20
        ∨ (0 ≤ t.position.x + b.x ∧ t.position.x + b.x < 10
            ∧ 0 ≤ t.position.y + b.y ∧ t.position.y + b.y < 20
            ∧ (g.cell (t.position.y + b.y).toNat (t.position.x + b.x).toNat).a ≠ 0))
    ∧ ((∃ b ∈ t.blocks,
        t.position.x + b.x < 0 ∨ t.position.x + b.x ≥ 10
        ∨ t.position.y + b.y < 0 ∨ t.position.y + b.y ≥ 20) ↔
      ∀ g2 : Grid, CheckCollision g2 t = true) := by
  have key : ∀ g2 : Grid, CheckCollision g2 t = true ↔
      ∃ b ∈ t.blocks,
        t.position.x + b.x < 0 ∨ t.position.x + b.x ≥ 10
        ∨ t.position.y + b.y < 0 ∨ t.position.y + b.y ≥ 20
        ∨ (g2.cell (t.position.y + b.y).toNat (t.position.x + b.x).toNat).a ≠ 0 := by
    intro g2
    unfold CheckCollision Tetromino.GetBlockPositions
    rw [CheckCollisionCells_iff]
    simp [COLS, ROWS]
  constructor
  · rw [key]
    constructor
    · rintro ⟨b, hb, h⟩
      refine ⟨b, hb, ?_⟩
      omega
    · rintro ⟨b, hb, h⟩
      refine ⟨b, hb, ?_⟩
      omega
  · constructor
    · rintro ⟨b, hb, h⟩ g2
      rw [key]
      exact ⟨b, hb, by omega⟩
    · intro h
      obtain ⟨b, hb, h2⟩ := (key emptyGrid).mp (h emptyGrid)
      refine ⟨b, hb, ?_⟩
      have h0 : (emptyGrid.cell (t.position.y + b.y).toNat (t.position.x + b.x).toNat).a = 0 :=
        rfl
      omega

/-- The loop of `LockToGrid`, cell by cell. -/
theorem cell_LockCells (color : Color) (cells : List Vector2) : ∀ (g : Grid) (r k : Nat),
    (LockCells color g cells).cell r k
      = if (⟨(k : Int), (r : Int)⟩ : Vector2) ∈ cells ∧ r < ROWS ∧ k < COLS then color
        else g.cell r k := by
  induction cells with
  | nil => intro g r k; simp [LockCells]
  | cons b rest ih =>
    intro g r k
    unfold LockCells
    by_cases hb : b.y ≥ 0 ∧ b.y < ROWS ∧ b.x ≥ 0 ∧ b.x < COLS
    · rw [if_pos hb, ih, cell_setCell]
      by_cases hm : (⟨(k : Int), (r : Int)⟩ : Vector2) ∈ rest ∧ r < ROWS ∧ k < COLS
      · have : (⟨(k : Int), (r : Int)⟩ : Vector2) ∈ b :: rest ∧ r < ROWS ∧ k < COLS :=
          ⟨List.mem_cons_of_mem _ hm.1, hm.2⟩
        rw [if_pos hm, if_pos this]
      · rw [if_neg hm]
        by_cases he : r = b.y.toNat ∧ k = b.x.toNat
        · have hbe : b = ⟨(k : Int), (r : Int)⟩ := by
            cases b with
            | mk bx by0 =>
              simp only [Vector2.mk.injEq] at *
              omega
          have : (⟨(k : Int), (r : Int)⟩ : Vector2) ∈ b :: rest ∧ r < ROWS ∧ k < COLS := by
            refine ⟨by rw [hbe]; exact List.mem_cons_self _ _, ?_, ?_⟩ <;> omega
          rw [if_pos he, if_pos this]
        · have : ¬ ((⟨(k : Int), (r : Int)⟩ : Vector2) ∈ b :: rest ∧ r < ROWS ∧ k < COLS) := by
            rintro ⟨h1, h2, h3⟩
            rcases List.mem_cons.mp h1 with h4 | h4
            · apply he
              rw [← h4]
              simp
            · exact hm ⟨h4, h2, h3⟩
          rw [if_neg he, if_neg this]
    · rw [if_neg hb, ih]
      by_cases hm : (⟨(k : Int), (r : Int)⟩ : Vector2) ∈ rest ∧ r < ROWS ∧ k < COLS
      · have : (⟨(k : Int), (r : Int)⟩ : Vector2) ∈ b :: rest ∧ r < ROWS ∧ k < COLS :=
          ⟨List.mem_cons_of_mem _ hm.1, hm.2⟩
        rw [if_pos hm, if_pos this]
      · have : ¬ ((⟨(k : Int), (r : Int)⟩ : Vector2) ∈ b :: rest ∧ r < ROWS ∧ k < COLS) := by
          rintro ⟨h1, h2, h3⟩
          rcases List.mem_cons.mp h1 with h4 | h4
          · apply hb
            rw [← h4]
            simp only
            omega
          · exact hm ⟨h4, h2, h3⟩
        rw [if_neg hm, if_neg this]

/-- C6: after `LockToGrid`, the grid cell `(col, row)` holds the color of
the piece if `(col, row)` is one of its world cells (origin plus offset) and
lies inside `[0,10) x [0,20)`, and holds its previous value otherwise; so a
world cell outside the bounds causes no write, and `LockToGrid` is total. -/
theorem LockToGrid_cell (g : Grid) (t : Tetromino) (row col : Nat) :
    (LockToGrid g t).cell row col
      = if (∃ b ∈ t.blocks, t.position.x + b.x = col ∧ t.position.y + b.y = row)
            ∧ row < 20 ∧ col < 10 then t.color
        else g.cell row col := by
  unfold LockToGrid
  rw [cell_LockCells]
  have : ((⟨(col : Int), (row : Int)⟩ : Vector2) ∈ t.GetBlockPositions ∧ row < ROWS ∧ col < COLS)
      ↔ ((∃ b ∈ t.blocks, t.position.x + b.x = col ∧ t.position.y + b.y = row)
            ∧ row < 20 ∧ col < 10) := by
    unfold Tetromino.GetBlockPositions
    simp [ROWS, COLS]
  by_cases h : (∃ b ∈ t.blocks, t.position.x + b.x = col ∧ t.position.y + b.y = row)
            ∧ row < 20 ∧ col < 10
  · rw [if_pos h, if_pos (this.mpr h)]
  · rw [if_neg h, if_neg (fun h2 => h (this.mp h2))]

/-- C7: a single `Rotate` maps the offset at every position from `(x, y)`
to `(-y, x)` and leaves kind, origin and color alone; four `Rotate`s in a
row give back the piece exactly, offsets position by position included. -/
theorem Rotate_four_times (t : Tetromino) :
    t.Rotate.Rotate.Rotate.Rotate = t
    ∧ t.Rotate.blocks.length = t.blocks.length
    ∧ (∀ i : Nat, t.Rotate.blocks[i]?
        = (t.blocks[i]?).map (fun b : Vector2 => (⟨-b.y, b.x⟩ : Vector2)))
    ∧ t.Rotate.type = t.type ∧ t.Rotate.position = t.position
    ∧ t.Rotate.color = t.color := by
  refine ⟨?_, ?_, ?_, rfl, rfl, rfl⟩
  · cases t with
    | mk ty pos blocks color =>
      simp only [Tetromino.Rotate, List.map_map, Tetromino.mk.injEq, true_and]
      have : ∀ b : Vector2, (⟨- -b.x, - -b.y⟩ : Vector2) = b := by
        intro b
        cases b
        simp
      simp [Function.comp_def, this]
  · simp [Tetromino.Rotate]
  · intro i
    simp [Tetromino.Rotate]

/-! ## The controller -/

theorem cell_resetRow (g : Grid) (y r k : Nat) :
    (resetRow g y).cell r k = if r = y ∧ k < COLS then BLANK else g.cell r k := by
  unfold resetRow
  exact cell_foldl_const g y COLS BLANK r k

theorem cell_foldl_resetRow (n : Nat) (g : Grid) (r k : Nat) :
    ((List.range n).foldl resetRow g).cell r k
      = if r < n ∧ k < COLS then BLANK else g.cell r k := by
  induction n generalizing r k with
  | zero => simp
  | succ n ih =>
    rw [List.range_succ, List.foldl_append]
    simp only [List.foldl_cons, List.foldl_nil, cell_resetRow]
    rw [ih]
    by_cases hk : k < COLS
    · by_cases h1 : r = n
      · simp [hk, h1]
      · by_cases h2 : r < n
        · have : r < n + 1 := by omega
          simp [hk, h1, h2, this]
        · have : ¬ r < n + 1 := by omega
          simp [hk, h1, h2, this]
    · simp [hk]

/-- The grid after the reset loops of the Play button, cell by cell. -/
theorem cell_resetGrid (g : Grid) (r k : Nat) :
    (resetGrid g).cell r k = if r < ROWS ∧ k < COLS then BLANK else g.cell r k := by
  unfold resetGrid
  exact cell_foldl_resetRow ROWS g r k

/-- The function `ClearLines` returns on every grid. -/
theorem ClearLines_total (g : Grid) : ∃ lines g', ClearLines g = some (lines, g') := by
  obtain ⟨g', h, _⟩ := ClearLines_spec g
  exact ⟨_, g', h⟩

/-- The lock block, once the result of `ClearLines` is known. -/
theorem lockAndSpawn_eq (inp : Input) (s : State) (back : Tetromino) (lines : Nat)
    (cleared : Grid) (h : ClearLines (LockToGrid s.grid back) = some (lines, cleared)) :
    ∃ s', lockAndSpawn inp s back = some s'
      ∧ (s'.currentState = s.currentState ∨ s'.currentState = GameState.GAME_OVER)
      ∧ s'.gameScore.GetScore = scoreAfterLock s.gameScore.GetScore lines
      ∧ s'.grid = cleared ∧ s'.current = CreateTetromino inp.randomType
      ∧ (s'.currentState = GameState.GAME_OVER ↔
          (CheckCollision cleared (CreateTetromino inp.randomType) = true
            ∨ s.currentState = GameState.GAME_OVER)) := by
  unfold lockAndSpawn
  rw [h]
  have hscore : (if lines > 0 then
        s.gameScore.SetScore s.store
          (wrapInt (s.gameScore.GetScore + wrapInt ((lines : Int) * 100)))
      else (s.gameScore, s.store)).1.GetScore
      = scoreAfterLock s.gameScore.GetScore lines := by
    unfold scoreAfterLock
    by_cases hl : lines > 0
    · rw [if_pos hl, if_pos hl, wrapInt_add_wrapInt, Int.mul_comm]
      rfl
    · rw [if_neg hl, if_neg hl]
  by_cases hc : CheckCollision cleared (CreateTetromino inp.randomType) = true
  · simp only [hc, if_true]
    exact ⟨_, rfl, Or.inr rfl, hscore, rfl, rfl, by simp⟩
  · simp only [hc, if_false]
    refine ⟨_, rfl, Or.inl rfl, hscore, rfl, rfl, ?_⟩
    simp [hc]

/-- One iteration of the main loop always produces a next state. -/
theorem step_total (inp : Input) (s : State) : ∃ s', step inp s = some s' := by
  unfold step
  cases hs : s.currentState with
  | MENU => exact ⟨_, rfl⟩
  | GAME_OVER => exact ⟨_, rfl⟩
  | PLAYING =>
    simp only [stepPlaying]
    by_cases hf : fallDue inp s = true
    · rw [if_pos hf]
      by_cases hc : CheckCollision s.grid
          ((handleKeys inp s.grid s.current).Move ⟨0, 1⟩) = true
      · rw [if_pos hc]
        obtain ⟨lines, g', hcl⟩ := ClearLines_total (LockToGrid s.grid
          (((handleKeys inp s.grid s.current).Move ⟨0, 1⟩).Move ⟨0, -1⟩))
        obtain ⟨s', h, _⟩ := lockAndSpawn_eq inp s _ lines g' hcl
        exact ⟨s', h⟩
      · rw [if_neg hc]
        exact ⟨_, rfl⟩
    · rw [if_neg hf]
      exact ⟨_, rfl⟩

/-- C8: every step yields a next state, and the only changes of
`currentState` are `MENU` to `PLAYING`, `PLAYING` to `GAME_OVER` and
`GAME_OVER` to `MENU`; in particular no step takes `GAME_OVER` to `PLAYING`,
`MENU` to `GAME_OVER` or `PLAYING` to `MENU`, whatever the input, the frame
time and the random draw. -/
theorem step_state_changes (inp : Input) (s : State) :
    ∃ s', step inp s = some s'
      ∧ (s'.currentState = s.currentState
        ∨ (s.currentState = GameState.MENU ∧ s'.currentState = GameState.PLAYING)
        ∨ (s.currentState = GameState.PLAYING ∧ s'.currentState = GameState.GAME_OVER)
        ∨ (s.currentState = GameState.GAME_OVER ∧ s'.currentState = GameState.MENU))
      ∧ ¬ (s.currentState = GameState.GAME_OVER ∧ s'.currentState = GameState.PLAYING)
      ∧ ¬ (s.currentState = GameState.MENU ∧ s'.currentState = GameState.GAME_OVER)
      ∧ ¬ (s.currentState = GameState.PLAYING ∧ s'.currentState = GameState.MENU) := by
  unfold step
  cases hs : s.currentState with
  | MENU =>
    refine ⟨_, rfl, ?_, ?_, ?_, ?_⟩
    · unfold stepMenu
      by_cases hb : CheckButton inp 160 300 160 60 = true
      · rw [if_pos hb]; exact Or.inr (Or.inl ⟨rfl, rfl⟩)
      · rw [if_neg hb]; exact Or.inl hs
    · rintro ⟨h, _⟩; cases h
    · unfold stepMenu
      by_cases hb : CheckButton inp 160 300 160 60 = true
      · rw [if_pos hb]; rintro ⟨_, h⟩; cases h
      · rw [if_neg hb, hs]; rintro ⟨_, h⟩; cases h
    · rintro ⟨h, _⟩; cases h
  | GAME_OVER =>
    refine ⟨_, rfl, ?_, ?_, ?_, ?_⟩
    · unfold stepGameOver
      by_cases hb : CheckButton inp 140 450 200 60 = true
      · rw [if_pos hb]; exact Or.inr (Or.inr (Or.inr ⟨rfl, rfl⟩))
      · rw [if_neg hb]; exact Or.inl hs
    · unfold stepGameOver
      by_cases hb : CheckButton inp 140 450 200 60 = true
      · rw [if_pos hb]; rintro ⟨_, h⟩; cases h
      · rw [if_neg hb, hs]; rintro ⟨_, h⟩; cases h
    · rintro ⟨h, _⟩; cases h
    · rintro ⟨h, _⟩; cases h
  | PLAYING =>
    have key : ∃ s', stepPlaying inp s = some s'
        ∧ (s'.currentState = GameState.PLAYING ∨ s'.currentState = GameState.GAME_OVER) := by
      simp only [stepPlaying]
      by_cases hf : fallDue inp s = true
      · rw [if_pos hf]
        by_cases hc : CheckCollision s.grid
            ((handleKeys inp s.grid s.current).Move ⟨0, 1⟩) = true
        · rw [if_pos hc]
          obtain ⟨lines, g', hcl⟩ := ClearLines_total (LockToGrid s.grid
            (((handleKeys inp s.grid s.current).Move ⟨0, 1⟩).Move ⟨0, -1⟩))
          obtain ⟨s', h, h2, _⟩ := lockAndSpawn_eq inp s _ lines g' hcl
          rw [hs] at h2
          exact ⟨s', h, h2⟩
        · rw [if_neg hc]
          exact ⟨_, rfl, Or.inl hs⟩
      · rw [if_neg hf]
        exact ⟨_, rfl, Or.inl hs⟩
    obtain ⟨s', h1, h2⟩ := key
    refine ⟨s', h1, ?_, ?_, ?_, ?_⟩
    · rcases h2 with h2 | h2
      · exact Or.inl h2
      · exact Or.inr (Or.inr (Or.inl ⟨rfl, h2⟩))
    · rintro ⟨h, _⟩; cases h
    · rintro ⟨h, _⟩; cases h
    · rintro ⟨_, h⟩
      rcases h2 with h2 | h2 <;> rw [h2] at h <;> cases h

/-- C9: from any `MENU` state (any grid, score, piece and timer), a step in
which the Play button is hit ends in `PLAYING` with every cell of the 10x20
grid blank, score 0, fall timer 0, and the current piece equal to
`CreateTetromino k` for the drawn kind `k`, which has kind `k` and origin
`(4, 0)`. -/
theorem menu_start (inp : Input) (s : State) (hs : s.currentState = GameState.MENU)
    (hplay : CheckButton inp 160 300 160 60 = true) :
    ∃ s', step inp s = some s'
      ∧ s'.currentState = GameState.PLAYING
      ∧ (∀ y x, y < ROWS → x < COLS → s'.grid.cell y x = BLANK)
      ∧ s'.gameScore.GetScore = 0
      ∧ s'.fallTimer = 0
      ∧ s'.current = CreateTetromino inp.randomType
      ∧ s'.current.type = inp.randomType
      ∧ s'.current.position = ⟨4, 0⟩ := by
  unfold step
  rw [hs]
  simp only [stepMenu, hplay, if_true]
  refine ⟨_, rfl, rfl, ?_, rfl, rfl, rfl, ?_, ?_⟩
  · intro y x hy hx
    simp only
    rw [cell_resetGrid]
    simp [hy, hx]
  · cases inp.randomType <;> rfl
  · cases inp.randomType <;> rfl

/-- Witness for C9: the Play button hit in a `MENU` state that still holds
the grid, score and piece of an earlier game. -/
theorem menu_start_witness :
    ({ stateBarOverGap with currentState := GameState.MENU }.currentState = GameState.MENU
      ∧ CheckButton inputPlay 160 300 160 60 = true)
    ∧ ∃ s', step inputPlay { stateBarOverGap with currentState := GameState.MENU } = some s'
      ∧ s'.currentState = GameState.PLAYING
      ∧ (∀ y x, y < ROWS → x < COLS → s'.grid.cell y x = BLANK)
      ∧ s'.gameScore.GetScore = 0
      ∧ s'.fallTimer = 0
      ∧ s'.current = CreateTetromino inputPlay.randomType
      ∧ s'.current.type = inputPlay.randomType
      ∧ s'.current.position = ⟨4, 0⟩ :=
  ⟨⟨rfl, by decide⟩,
    menu_start inputPlay { stateBarOverGap with currentState := GameState.MENU } rfl
      (by decide)⟩

/-! ## A second call of `ClearLines` -/

/-- On a grid without a full row `ClearLines` returns 0 and the grid
itself. -/
theorem ClearLines_no_full (g : Grid) (h : ∀ y, y < ROWS → ¬ RowIsFull g y) :
    ClearLines g = some (0, g) := by
  unfold ClearLines
  have e1 : 2 * ROWS + 1 = (ROWS + 1) + ROWS := by omega
  have hskip := ClearLinesLoop_skip ROWS (ROWS + 1) 0 g 0 (fun y _ h2 => h y (by omega))
  rw [Nat.zero_add] at hskip
  rw [e1, hskip]
  exact ClearLinesLoop_done ROWS g 0

/-- Every row of a list of the shape produced by `ClearLines` fails the
fullness test. -/
theorem not_full_of_mem_compacted (rows : List (List Color)) (k : Nat) (row : List Color)
    (h : row ∈ List.replicate k blankRow ++ rows.filter (fun r => !fullRow r)) :
    fullRow row = false := by
  rcases List.mem_append.mp h with h1 | h1
  · rw [(List.mem_replicate.mp h1).2]
    exact fullRow_blankRow
  · have := (List.mem_filter.mp h1).2
    simpa using this

/-- The grid left by `ClearLines` has no full row. -/
theorem ClearLines_result_no_full (g g' : Grid) (n : Nat) (h : ClearLines g = some (n, g')) :
    ∀ y, y < ROWS → ¬ RowIsFull g' y := by
  obtain ⟨g2, h1, h2, _⟩ := ClearLines_spec g
  rw [h] at h1
  simp only [Option.some.injEq, Prod.mk.injEq] at h1
  obtain ⟨_, rfl⟩ := h1
  intro y hy hfull
  have hmem : rowCells g' y ∈ gridRows g' ROWS := by
    unfold gridRows
    exact List.mem_map.mpr ⟨y, List.mem_range.mpr hy, rfl⟩
  rw [h2] at hmem
  have hnf := not_full_of_mem_compacted _ _ _ hmem
  rw [fullRow_rowCells] at hnf
  simp at hnf
  exact hnf hfull

/-- C19: on every grid `ClearLines` returns a grid without any full row, so
a second call right after the first returns 0 and leaves that grid as it
is. -/
theorem ClearLines_twice (g : Grid) :
    ∃ n g', ClearLines g = some (n, g')
      ∧ (∀ y, y < ROWS → ¬ RowIsFull g' y)
      ∧ ClearLines g' = some (0, g') := by
  obtain ⟨n, g', h⟩ := ClearLines_total g
  have hnf := ClearLines_result_no_full g g' n h
  exact ⟨n, g', h, hnf, ClearLines_no_full g' hnf⟩

/-! ## Rollback of blocked moves, lock and spawn -/

/-- A move followed by the opposite move gives back the piece. -/
theorem Move_Move_back (t : Tetromino) (dx dy : Int) :
    (t.Move ⟨dx, dy⟩).Move ⟨-dx, -dy⟩ = t := by
  cases t with
  | mk ty pos blocks color =>
    cases pos with
    | mk px py =>
      simp [Tetromino.Move]

theorem Move_left_right (t : Tetromino) : (t.Move ⟨-1, 0⟩).Move ⟨1, 0⟩ = t := by
  have := Move_Move_back t (-1) 0
  simpa using this

theorem Move_right_left (t : Tetromino) : (t.Move ⟨1, 0⟩).Move ⟨-1, 0⟩ = t := by
  have := Move_Move_back t 1 0
  simpa using this

theorem Move_down_up (t : Tetromino) : (t.Move ⟨0, 1⟩).Move ⟨0, -1⟩ = t := by
  have := Move_Move_back t 0 1
  simpa using this

/-- Four quarter turns give back the piece. -/
theorem Rotate_Rotate_Rotate_Rotate (t : Tetromino) : t.Rotate.Rotate.Rotate.Rotate = t := by
  cases t with
  | mk ty pos blocks color =>
    simp only [Tetromino.Rotate, List.map_map, Tetromino.mk.injEq, true_and]
    have : ∀ b : Vector2, (⟨- -b.x, - -b.y⟩ : Vector2) = b := by
      intro b
      cases b
      simp
    simp [Function.comp_def, this]

theorem handleLeft_eq (g : Grid) (t : Tetromino) :
    handleLeft g t = if CheckCollision g (t.Move ⟨-1, 0⟩) = true then t else t.Move ⟨-1, 0⟩ := by
  unfold handleLeft
  by_cases h : CheckCollision g (t.Move ⟨-1, 0⟩) = true
  · simp only [h, if_true]; exact Move_left_right t
  · simp only [h, if_false]; simp

theorem handleRight_eq (g : Grid) (t : Tetromino) :
    handleRight g t = if CheckCollision g (t.Move ⟨1, 0⟩) = true then t else t.Move ⟨1, 0⟩ := by
  unfold handleRight
  by_cases h : CheckCollision g (t.Move ⟨1, 0⟩) = true
  · simp only [h, if_true]; exact Move_right_left t
  · simp only [h, if_false]; simp

theorem handleRotate_eq (g : Grid) (t : Tetromino) :
    handleRotate g t = if CheckCollision g t.Rotate = true then t else t.Rotate := by
  unfold handleRotate
  by_cases h : CheckCollision g t.Rotate = true
  · simp only [h, if_true]; exact Rotate_Rotate_Rotate_Rotate t
  · simp only [h, if_false]; simp

/-- The `PLAYING` branch when the downward move is attempted and blocked. -/
theorem stepPlaying_lock (inp : Input) (s : State) (hl : lockOccurs inp s = true) :
    stepPlaying inp s = lockAndSpawn inp s (handleKeys inp s.grid s.current) := by
  unfold lockOccurs at hl
  rw [Bool.and_eq_true] at hl
  simp only [stepPlaying, hl.1, hl.2, if_true, Move_down_up]

/-- C11: in a `PLAYING` tick whose downward move is attempted and blocked,
the piece is locked where it was before the downward move, `ClearLines`
runs on the locked grid and its result becomes the grid, the piece
`CreateTetromino k` of the drawn kind is spawned, and the state after the
tick is `GAME_OVER` exactly when that piece collides with the resulting
grid and `PLAYING` otherwise; so an occupied spawn cell gives `GAME_OVER`
in the same tick. -/
theorem blocked_fall_locks_and_spawns (inp : Input) (s : State)
    (hs : s.currentState = GameState.PLAYING) (hl : lockOccurs inp s = true) :
    ∃ lines cleared s',
      ClearLines (LockToGrid s.grid (handleKeys inp s.grid s.current)) = some (lines, cleared)
      ∧ step inp s = some s'
      ∧ s'.grid = cleared
      ∧ s'.current = CreateTetromino inp.randomType
      ∧ (s'.currentState = GameState.GAME_OVER ↔
          CheckCollision cleared (CreateTetromino inp.randomType) = true)
      ∧ (s'.currentState = GameState.PLAYING ↔
          CheckCollision cleared (CreateTetromino inp.randomType) = false)
      ∧ ((∃ b ∈ (CreateTetromino inp.randomType).blocks,
            (cleared.cell ((CreateTetromino inp.randomType).position.y + b.y).toNat
              ((CreateTetromino inp.randomType).position.x + b.x).toNat).a ≠ 0) →
          s'.currentState = GameState.GAME_OVER) := by
  obtain ⟨lines, cleared, hcl⟩ :=
    ClearLines_total (LockToGrid s.grid (handleKeys inp s.grid s.current))
  obtain ⟨s', h1, h2, _, h4, h5, h6⟩ := lockAndSpawn_eq inp s _ lines cleared hcl
  have hover : s'.currentState = GameState.GAME_OVER ↔
      CheckCollision cleared (CreateTetromino inp.randomType) = true := by
    rw [h6, hs]
    simp
  refine ⟨lines, cleared, s', hcl, ?_, h4, h5, hover, ?_, ?_⟩
  · unfold step
    rw [hs]
    simp only
    rw [stepPlaying_lock inp s hl, h1]
  · rw [hs] at h2
    constructor
    · intro hp
      cases hc : CheckCollision cleared (CreateTetromino inp.randomType) with
      | false => rfl
      | true =>
        have := hover.mpr hc
        rw [hp] at this
        cases this
    · intro hc
      rcases h2 with h2 | h2
      · exact h2
      · have := hover.mp h2
        rw [hc] at this
        cases this
  · rintro ⟨b, hb, hocc⟩
    apply hover.mpr
    unfold CheckCollision Tetromino.GetBlockPositions
    rw [CheckCollisionCells_iff]
    exact ⟨_, List.mem_map.mpr ⟨b, hb, rfl⟩, Or.inr (Or.inr (Or.inr (Or.inr hocc)))⟩

/-- The tick of `blocked_fall_locks_and_spawns_witness` locks. -/
theorem stateSquareStuck_locks : lockOccurs inputDown stateSquareStuck = true := by
  unfold lockOccurs fallDue
  rw [show inputDown.keyDown = true from rfl, Bool.or_true, Bool.true_and]
  decide

/-- Witness for C11: the square resting at the spawn position is locked
there, the next square spawns onto it, and the tick ends in `GAME_OVER`. -/
theorem blocked_fall_locks_and_spawns_witness :
    (stateSquareStuck.currentState = GameState.PLAYING
      ∧ lockOccurs inputDown stateSquareStuck = true)
    ∧ ∃ lines cleared s',
      ClearLines (LockToGrid stateSquareStuck.grid
          (handleKeys inputDown stateSquareStuck.grid stateSquareStuck.current))
        = some (lines, cleared)
      ∧ step inputDown stateSquareStuck = some s'
      ∧ s'.grid = cleared
      ∧ s'.current = CreateTetromino inputDown.randomType
      ∧ (s'.currentState = GameState.GAME_OVER ↔
          CheckCollision cleared (CreateTetromino inputDown.randomType) = true)
      ∧ (s'.currentState = GameState.PLAYING ↔
          CheckCollision cleared (CreateTetromino inputDown.randomType) = false)
      ∧ s'.currentState = GameState.GAME_OVER := by
  obtain ⟨lines, cleared, s', h1, h2, h3, h4, h5, h6, h7⟩ :=
    blocked_fall_locks_and_spawns inputDown stateSquareStuck rfl stateSquareStuck_locks
  refine ⟨⟨rfl, stateSquareStuck_locks⟩, lines, cleared, s', h1, h2, h3, h4, h5, h6, ?_⟩
  have hnf := ClearLines_no_full (LockToGrid stateSquareStuck.grid
    (handleKeys inputDown stateSquareStuck.grid stateSquareStuck.current)) (by decide)
  rw [hnf] at h1
  simp only [Option.some.injEq, Prod.mk.injEq] at h1
  obtain ⟨_, rfl⟩ := h1
  exact h7 ⟨⟨0, 0⟩, by decide, by decide⟩

/-! ## The score notifier -/

/-- Recording the calls does not change what the loop does to the
observers. -/
theorem notifyObserversCalls_fst (score : Int) (obs : List Nat) : ∀ st : ObserverStore,
    (notifyObserversCalls score st obs).1 = notifyObservers score st obs := by
  induction obs with
  | nil => intro st; rfl
  | cons o rest ih => intro st; simp only [notifyObserversCalls, notifyObservers, ih]

/-- The loop calls the observers one list entry after the other. -/
theorem notifyObserversCalls_snd (score : Int) (obs : List Nat) : ∀ st : ObserverStore,
    (notifyObserversCalls score st obs).2 = obs.map (fun o => (o, score)) := by
  induction obs with
  | nil => intro st; rfl
  | cons o rest ih => intro st; simp only [notifyObserversCalls, List.map_cons, ih]

/-- After the loop an observer of the list holds the new score, and any
other observer object is untouched. -/
theorem notifyObservers_obj (score : Int) (obs : List Nat) : ∀ (st : ObserverStore) (p : Nat),
    (notifyObservers score st obs).obj p
      = if p ∈ obs then (⟨score⟩ : ScoreUI) else st.obj p := by
  induction obs with
  | nil => intro st p; simp [notifyObservers]
  | cons o rest ih =>
    intro st p
    simp only [notifyObservers]
    rw [ih]
    by_cases h1 : p ∈ rest
    · simp [h1]
    · by_cases h2 : p = o
      · simp [h1, h2, ObserverStore.put, ScoreUI.OnScoreChanged]
      · simp [h1, h2, ObserverStore.put]

/-- C14, amended: for every `Subject`, whatever its list of attached
observers, and every `v`, `SetScore(v)` makes `GetScore()` return `v` and
keeps the list; its calls of `OnScoreChanged` are one call with argument `v`
per entry of the list, in attachment order, so an observer is called as many
times as it was attached (exactly once when attached once); afterwards every
attached `ScoreUI` reports `Get() = v`, and no other observer object has
changed. -/
theorem SetScore_notifies (s : Subject) (st : ObserverStore) (v : Int) :
    (s.SetScore st v).1.GetScore = v
    ∧ (s.SetScore st v).1.observers = s.observers
    ∧ s.SetScoreCalls st v = s.observers.map (fun o => (o, v))
    ∧ (∀ o, ((s.SetScoreCalls st v).map Prod.fst).count o = s.observers.count o)
    ∧ (∀ o, o ∈ s.observers → ((s.SetScore st v).2.obj o).Get = v)
    ∧ (∀ o, o ∉ s.observers → (s.SetScore st v).2.obj o = st.obj o) := by
  have hcalls : s.SetScoreCalls st v = s.observers.map (fun o => (o, v)) :=
    notifyObserversCalls_snd v s.observers st
  refine ⟨rfl, rfl, hcalls, ?_, ?_, ?_⟩
  · intro o
    rw [hcalls, List.map_map]
    have : (Prod.fst ∘ fun o : Nat => (o, v)) = id := rfl
    rw [this, List.map_id]
  · intro o ho
    simp only [Subject.SetScore, notifyObservers_obj, ho, if_true, ScoreUI.Get]
  · intro o ho
    simp only [Subject.SetScore, notifyObservers_obj, ho, if_false]

/-- Counterexample for C14 as stated: `Attach` does not look for
duplicates, so after `Attach(&ui)` twice the observer `ui` is an attached
observer on which `SetScore(5)` calls `OnScoreChanged(5)` twice, not exactly
once. -/
theorem SetScore_calls_twice_attached :
    uiAddr ∈ subjectAttachedTwice.observers
    ∧ subjectAttachedTwice.SetScoreCalls ⟨fun _ => ⟨0⟩⟩ 5 = [(uiAddr, 5), (uiAddr, 5)]
    ∧ ((subjectAttachedTwice.SetScoreCalls ⟨fun _ => ⟨0⟩⟩ 5).map Prod.fst).count uiAddr = 2
    ∧ ¬ (∀ (s : Subject) (st : ObserverStore) (v : Int) (o : Nat), o ∈ s.observers →
          ((s.SetScoreCalls st v).map Prod.fst).count o = 1) := by
  refine ⟨by decide, rfl, by decide, ?_⟩
  intro h
  have := h subjectAttachedTwice ⟨fun _ => ⟨0⟩⟩ 5 uiAddr (by decide)
  revert this
  decide

/-! ## Termination and index safety of `ClearLines` -/

theorem scanAccesses_inGrid (g : Grid) (y : Int) (hy0 : 0 ≤ y) (hy : y < ROWS) (n : Nat) :
    ∀ x, x + n ≤ COLS → ∀ a ∈ scanAccesses g y n x, inGrid a := by
  induction n with
  | zero => intro x _ a ha; simp [scanAccesses] at ha
  | succ n ih =>
    intro x hx a ha
    simp only [scanAccesses, List.mem_cons] at ha
    rcases ha with rfl | ha
    · have hx2 : x < COLS := by omega
      show 0 ≤ y ∧ y < (ROWS : Int) ∧ (0 : Int) ≤ (x : Int) ∧ (x : Int) < (COLS : Int)
      exact ⟨hy0, hy, Int.natCast_nonneg x, by exact_mod_cast hx2⟩
    · by_cases hz : (g.cell y.toNat x).a = 0
      · rw [if_pos hz] at ha; simp at ha
      · rw [if_neg hz] at ha
        exact ih (x + 1) (by omega) a ha

theorem copyRowAccesses_inGrid (row : Int) (h1 : 1 ≤ row) (h2 : row < ROWS) :
    ∀ a ∈ copyRowAccesses row, inGrid a := by
  intro a ha
  unfold copyRowAccesses at ha
  obtain ⟨col, hcol, hmem⟩ := List.mem_flatMap.mp ha
  have hcol2 : col < COLS := List.mem_range.mp hcol
  have hc : (col : Int) < (COLS : Int) := by exact_mod_cast hcol2
  simp only [List.mem_cons, List.mem_singleton, List.not_mem_nil, or_false] at hmem
  rcases hmem with rfl | rfl
  · show 0 ≤ row - 1 ∧ row - 1 < (ROWS : Int) ∧ (0 : Int) ≤ (col : Int) ∧ _
    exact ⟨by omega, by omega, Int.natCast_nonneg col, hc⟩
  · show 0 ≤ row ∧ row < (ROWS : Int) ∧ (0 : Int) ≤ (col : Int) ∧ _
    exact ⟨by omega, h2, Int.natCast_nonneg col, hc⟩

theorem shiftAccesses_inGrid (y : Nat) (hy : y < ROWS) : ∀ a ∈ shiftAccesses y, inGrid a := by
  induction y with
  | zero => intro a ha; simp [shiftAccesses] at ha
  | succ y ih =>
    intro a ha
    simp only [shiftAccesses, List.mem_append] at ha
    rcases ha with ha | ha
    · exact copyRowAccesses_inGrid _ (by push_cast; omega) (by exact_mod_cast hy) a ha
    · exact ih (by omega) a ha

theorem clearTopAccesses_inGrid : ∀ a ∈ clearTopAccesses, inGrid a := by
  intro a ha
  unfold clearTopAccesses at ha
  obtain ⟨col, hcol, rfl⟩ := List.mem_map.mp ha
  have hcol2 : col < COLS := List.mem_range.mp hcol
  have hc : (col : Int) < (COLS : Int) := by exact_mod_cast hcol2
  show (0 : Int) ≤ 0 ∧ (0 : Int) < (ROWS : Int) ∧ (0 : Int) ≤ (col : Int) ∧ _
  exact ⟨le_refl _, by decide, Int.natCast_nonneg col, hc⟩

/-- While the loop variable stays at most `ROWS - 1`, every index the loop
uses lies inside the grid. -/
theorem ClearLinesAccessLoop_inGrid (fuel : Nat) : ∀ (g : Grid) (y : Int)
    (acc res : List (Int × Int)), y < ROWS → (∀ a ∈ acc, inGrid a) →
    ClearLinesAccessLoop fuel g y acc = some res → ∀ a ∈ res, inGrid a := by
  induction fuel with
  | zero => intro g y acc res _ _ h; simp [ClearLinesAccessLoop] at h
  | succ fuel ih =>
    intro g y acc res hy hacc h
    unfold ClearLinesAccessLoop at h
    by_cases hy0 : y ≥ 0
    · rw [if_pos hy0] at h
      have hscan := scanAccesses_inGrid g y hy0 hy COLS 0 (by omega)
      by_cases hf : rowFull g y.toNat = true
      · rw [if_pos hf] at h
        have hyn : y.toNat < ROWS := by
          have := Int.toNat_of_nonneg hy0
          omega
        refine ih _ _ _ res (by omega) ?_ h
        intro a ha
        simp only [List.mem_append] at ha
        rcases ha with ((ha | ha) | ha) | ha
        · exact hacc a ha
        · exact hscan a ha
        · exact shiftAccesses_inGrid _ hyn a ha
        · exact clearTopAccesses_inGrid a ha
      · rw [if_neg hf] at h
        refine ih _ _ _ res (by omega) ?_ h
        intro a ha
        simp only [List.mem_append] at ha
        rcases ha with ha | ha
        · exact hacc a ha
        · exact hscan a ha
    · rw [if_neg hy0] at h
      simp only [Option.some.injEq] at h
      rw [← h]
      exact hacc

/-- The collecting loop ends exactly when `ClearLinesLoop` does. -/
theorem ClearLinesAccessLoop_isSome (fuel : Nat) : ∀ (g : Grid) (y : Int) (lines : Nat)
    (acc : List (Int × Int)),
    (ClearLinesAccessLoop fuel g y acc).isSome = (ClearLinesLoop fuel g y lines).isSome := by
  induction fuel with
  | zero => intro g y lines acc; rfl
  | succ fuel ih =>
    intro g y lines acc
    unfold ClearLinesAccessLoop ClearLinesLoop
    by_cases hy0 : y ≥ 0
    · rw [if_pos hy0, if_pos hy0]
      by_cases hf : rowFull g y.toNat = true
      · rw [if_pos hf, if_pos hf]; exact ih _ _ _ _
      · rw [if_neg hf, if_neg hf]; exact ih _ _ _ _
    · rw [if_neg hy0, if_neg hy0]; rfl

/-- C15: on every grid `ClearLines` terminates (the loop, which examines an
index again after each removal, ends within `2 * ROWS + 1` evaluations of
its condition, and more fuel gives the same result), and every grid index
it uses (rows scanned, rows `row` and `row - 1` of the shift, row 0 of the
blanking) has its row in `[0, 20)` and its column in `[0, 10)`. -/
theorem ClearLines_terminates_in_bounds (g : Grid) :
    ∃ n g' acc, ClearLines g = some (n, g')
      ∧ (∀ extra, ClearLinesLoop (2 * ROWS + 1 + extra) g ((ROWS : Int) - 1) 0 = some (n, g'))
      ∧ ClearLinesAccesses g = some acc
      ∧ ∀ a ∈ acc, 0 ≤ a.1 ∧ a.1 < 20 ∧ 0 ≤ a.2 ∧ a.2 < 10 := by
  obtain ⟨n, g', h⟩ := ClearLines_total g
  have hsome : (ClearLinesAccesses g).isSome = true := by
    unfold ClearLinesAccesses
    rw [ClearLinesAccessLoop_isSome _ g _ 0 []]
    have : ClearLinesLoop (2 * ROWS + 1) g ((ROWS : Int) - 1) 0 = some (n, g') := h
    rw [this]
    rfl
  obtain ⟨acc, hacc⟩ := Option.isSome_iff_exists.mp hsome
  refine ⟨n, g', acc, h, ?_, hacc, ?_⟩
  · intro extra
    rw [ClearLinesLoop_fuel, h]
  · intro a ha
    have := ClearLinesAccessLoop_inGrid _ g _ [] acc (by omega)
      (fun a ha => by simp at ha) hacc a ha
    exact this

/-! ## Invariants of the reachable states -/

/-- A piece is free in the grid exactly when each of its world cells is
inside the bounds and on an empty cell. -/
theorem CheckCollision_false_iff (g : Grid) (t : Tetromino) :
    CheckCollision g t = false ↔
      ∀ p ∈ t.GetBlockPositions, 0 ≤ p.x ∧ p.x < COLS ∧ 0 ≤ p.y ∧ p.y < ROWS
        ∧ (g.cell p.y.toNat p.x.toNat).a = 0 := by
  rw [← Bool.not_eq_true, CheckCollision, CheckCollisionCells_iff]
  constructor
  · intro h p hp
    by_contra hcon
    apply h
    refine ⟨p, hp, ?_⟩
    by_cases hz : (g.cell p.y.toNat p.x.toNat).a = 0
    · have : ¬ (0 ≤ p.x ∧ p.x < COLS ∧ 0 ≤ p.y ∧ p.y < ROWS) := fun h4 =>
        hcon ⟨h4.1, h4.2.1, h4.2.2.1, h4.2.2.2, hz⟩
      omega
    · exact Or.inr (Or.inr (Or.inr (Or.inr hz)))
  · rintro h ⟨p, hp, hbad⟩
    obtain ⟨h1, h2, h3, h4, h5⟩ := h p hp
    rcases hbad with h6 | h6 | h6 | h6 | h6
    · omega
    · omega
    · omega
    · omega
    · exact h6 h5

theorem PieceOk_Move (g : Grid) (t : Tetromino) (d : Vector2) (ht : PieceOk g t)
    (hc : ¬ CheckCollision g (t.Move d) = true) : PieceOk g (t.Move d) :=
  ⟨by simpa using hc, ht.2.1, ht.2.2.1, ht.2.2.2⟩

theorem PieceOk_Rotate (g : Grid) (t : Tetromino) (ht : PieceOk g t)
    (hc : ¬ CheckCollision g t.Rotate = true) : PieceOk g t.Rotate := by
  refine ⟨by simpa using hc, ?_, ?_, ht.2.2.2⟩
  · simp [Tetromino.Rotate, ht.2.1]
  · unfold Tetromino.Rotate
    apply List.Nodup.map _ ht.2.2.1
    intro a b hab
    cases a; cases b
    simp only [Vector2.mk.injEq, neg_inj] at hab
    simp [hab.1, hab.2]

/-- The three key blocks leave a free piece free. -/
theorem PieceOk_handleKeys (inp : Input) (g : Grid) (t : Tetromino) (ht : PieceOk g t) :
    PieceOk g (handleKeys inp g t) := by
  have hL : ∀ t, PieceOk g t → PieceOk g (handleLeft g t) := by
    intro t ht
    rw [handleLeft_eq]
    by_cases h : CheckCollision g (t.Move ⟨-1, 0⟩) = true
    · rw [if_pos h]; exact ht
    · rw [if_neg h]; exact PieceOk_Move g t _ ht h
  have hR : ∀ t, PieceOk g t → PieceOk g (handleRight g t) := by
    intro t ht
    rw [handleRight_eq]
    by_cases h : CheckCollision g (t.Move ⟨1, 0⟩) = true
    · rw [if_pos h]; exact ht
    · rw [if_neg h]; exact PieceOk_Move g t _ ht h
  have hU : ∀ t, PieceOk g t → PieceOk g (handleRotate g t) := by
    intro t ht
    rw [handleRotate_eq]
    by_cases h : CheckCollision g t.Rotate = true
    · rw [if_pos h]; exact ht
    · rw [if_neg h]; exact PieceOk_Rotate g t ht h
  unfold handleKeys
  simp only
  have h1 : PieceOk g (if inp.keyLeft = true then handleLeft g t else t) := by
    by_cases h : inp.keyLeft = true
    · rw [if_pos h]; exact hL t ht
    · rw [if_neg h]; exact ht
  have h2 : PieceOk g (if inp.keyRight = true
      then handleRight g (if inp.keyLeft = true then handleLeft g t else t)
      else (if inp.keyLeft = true then handleLeft g t else t)) := by
    by_cases h : inp.keyRight = true
    · rw [if_pos h]; exact hR _ h1
    · rw [if_neg h]; exact h1
  by_cases h : inp.keyUp = true
  · rw [if_pos h]; exact hU _ h2
  · rw [if_neg h]; exact h2

/-- A freshly created piece is free in a grid whose 10x20 cells are all
blank. -/
theorem PieceOk_CreateTetromino (g : Grid) (k : TetrominoType)
    (hg : ∀ y x, y < ROWS → x < COLS → (g.cell y x).a = 0) :
    PieceOk g (CreateTetromino k) := by
  refine ⟨?_, ?_, ?_, ?_⟩
  · rw [CheckCollision_false_iff]
    intro p hp
    have hb : 0 ≤ p.x ∧ p.x < COLS ∧ 0 ≤ p.y ∧ p.y < ROWS := by
      cases k <;>
        simp only [CreateTetromino, Tetromino.GetBlockPositions, List.map_cons, List.map_nil,
          List.mem_cons, List.mem_singleton, List.not_mem_nil, or_false] at hp <;>
        rcases hp with rfl | rfl | rfl | rfl <;> decide
    refine ⟨hb.1, hb.2.1, hb.2.2.1, hb.2.2.2, ?_⟩
    apply hg
    · have := hb.2.2.2; have := hb.2.2.1; omega
    · have := hb.2.1; have := hb.1; omega
  · cases k <;> rfl
  · cases k <;> decide
  · cases k <;> decide

theorem no_full_row_of_blank (g : Grid)
    (hg : ∀ y x, y < ROWS → x < COLS → (g.cell y x).a = 0) :
    ∀ y, y < ROWS → ¬ RowIsFull g y := by
  intro y hy hfull
  exact hfull 0 (by decide) (hg y 0 hy (by decide))

/-- One iteration of the main loop keeps the invariant. -/
theorem Inv_step (inp : Input) (s s' : State) (hinv : Inv s) (h : step inp s = some s') :
    Inv s' := by
  obtain ⟨hrows, hscore, hpiece⟩ := hinv
  unfold step at h
  cases hs : s.currentState with
  | MENU =>
    rw [hs] at h
    simp only [Option.some.injEq] at h
    subst h
    unfold stepMenu
    by_cases hb : CheckButton inp 160 300 160 60 = true
    · rw [if_pos hb]
      have hblank : ∀ y x, y < ROWS → x < COLS → ((resetGrid s.grid).cell y x).a = 0 := by
        intro y x hy hx
        rw [cell_resetGrid]
        simp [hy, hx, BLANK]
      have hzero : INT_MIN ≤ (0 : Int) ∧ (0 : Int) ≤ INT_MAX := by decide
      exact ⟨no_full_row_of_blank _ hblank, hzero,
        fun _ => PieceOk_CreateTetromino _ _ hblank⟩
    · rw [if_neg hb]
      exact ⟨hrows, hscore, hpiece⟩
  | GAME_OVER =>
    rw [hs] at h
    simp only [Option.some.injEq] at h
    subst h
    unfold stepGameOver
    by_cases hb : CheckButton inp 140 450 200 60 = true
    · rw [if_pos hb]
      exact ⟨hrows, hscore, fun hp => by cases hp⟩
    · rw [if_neg hb]
      exact ⟨hrows, hscore, hpiece⟩
  | PLAYING =>
    rw [hs] at h
    simp only [stepPlaying] at h
    have hc := PieceOk_handleKeys inp s.grid s.current (hpiece hs)
    by_cases hf : fallDue inp s = true
    · rw [if_pos hf] at h
      by_cases hcol : CheckCollision s.grid
          ((handleKeys inp s.grid s.current).Move ⟨0, 1⟩) = true
      · rw [if_pos hcol] at h
        obtain ⟨lines, cleared, hcl⟩ := ClearLines_total (LockToGrid s.grid
          (((handleKeys inp s.grid s.current).Move ⟨0, 1⟩).Move ⟨0, -1⟩))
        obtain ⟨s2, h1, _, h3, h4, h5, h6⟩ := lockAndSpawn_eq inp s _ lines cleared hcl
        rw [h1] at h
        simp only [Option.some.injEq] at h
        subst h
        have hnf := ClearLines_result_no_full _ _ _ hcl
        refine ⟨by rw [h4]; exact hnf, ?_, ?_⟩
        · rw [h3]
          unfold scoreAfterLock
          by_cases hl : lines > 0
          · rw [if_pos hl]; exact wrapInt_inRange _
          · rw [if_neg hl]; exact hscore
        · intro hp
          rw [h4, h5]
          have hnc : ¬ CheckCollision cleared (CreateTetromino inp.randomType) = true := by
            intro hcc
            have := h6.mpr (Or.inl hcc)
            rw [hp] at this
            cases this
          have hnew := PieceOk_CreateTetromino emptyGrid inp.randomType
            (fun _ _ _ _ => rfl)
          exact ⟨by simpa using hnc, hnew.2.1, hnew.2.2.1, hnew.2.2.2⟩
      · rw [if_neg hcol] at h
        simp only [Option.some.injEq] at h
        subst h
        exact ⟨hrows, hscore, fun _ => PieceOk_Move _ _ _ hc hcol⟩
    · rw [if_neg hf] at h
      simp only [Option.some.injEq] at h
      subst h
      exact ⟨hrows, hscore, fun _ => hc⟩

/-- The invariant holds in every reachable state. -/
theorem Reachable_Inv (s : State) (h : Reachable s) : Inv s := by
  induction h with
  | initial type position color =>
    have hzero : INT_MIN ≤ (0 : Int) ∧ (0 : Int) ≤ INT_MAX := by decide
    exact ⟨no_full_row_of_blank _ (fun _ _ _ _ => rfl), hzero, fun hp => by cases hp⟩
  | next inp s s' _ hstep ih => exact Inv_step inp s s' ih hstep

/-- The step that leads from the initial state to `statePlayStarted`. -/
theorem statePlayStarted_reachable : Reachable statePlayStarted :=
  Reachable.next inputPlay (initialState TetrominoType.I ⟨0, 0⟩ BLANK) statePlayStarted
    (Reachable.initial _ _ _) rfl

theorem statePlayStarted_playing : statePlayStarted.currentState = GameState.PLAYING := by
  decide

/-- C18: in every reachable state that is `PLAYING`, the current piece
does not collide with the grid.  This rests on the three fresh shapes being
free on a blank grid, which is stated too, and on the exact rollback of
blocked moves and rotations. -/
theorem playing_piece_is_free (s : State) (h : Reachable s)
    (hs : s.currentState = GameState.PLAYING) :
    CheckCollision s.grid s.current = false
    ∧ ∀ k, CheckCollision emptyGrid (CreateTetromino k) = false :=
  ⟨((Reachable_Inv s h).2.2 hs).1,
    fun k => (PieceOk_CreateTetromino emptyGrid k (fun _ _ _ _ => rfl)).1⟩

/-- Witness for C18: the state right after the Play button is reachable and
`PLAYING`. -/
theorem playing_piece_is_free_witness :
    (Reachable statePlayStarted ∧ statePlayStarted.currentState = GameState.PLAYING)
    ∧ CheckCollision statePlayStarted.grid statePlayStarted.current = false
    ∧ ∀ k, CheckCollision emptyGrid (CreateTetromino k) = false :=
  ⟨⟨statePlayStarted_reachable, statePlayStarted_playing⟩,
    playing_piece_is_free statePlayStarted statePlayStarted_reachable
      statePlayStarted_playing⟩

/-! ## What one lock can do to the grid -/

/-- The number of lines cleared in a tick is the number of full rows of the
grid right after the lock. -/
theorem linesClearedThisTick_eq (inp : Input) (s : State) :
    linesClearedThisTick inp s
      = (if lockOccurs inp s then fullRowCount (lockedGrid inp s) else 0) := by
  unfold linesClearedThisTick
  by_cases hl : lockOccurs inp s = true
  · obtain ⟨g', h, _⟩ := ClearLines_spec (lockedGrid inp s)
    rw [if_pos hl, if_pos hl, h]
  · rw [if_neg hl, if_neg hl]

/-- The score after a `PLAYING` tick. -/
theorem step_playing_score (inp : Input) (s : State)
    (hs : s.currentState = GameState.PLAYING) :
    ∃ s', step inp s = some s'
      ∧ s'.gameScore.GetScore
          = scoreAfterLock s.gameScore.GetScore (linesClearedThisTick inp s) := by
  have hlines := linesClearedThisTick_eq inp s
  unfold step
  rw [hs]
  simp only [stepPlaying]
  by_cases hf : fallDue inp s = true
  · rw [if_pos hf]
    by_cases hc : CheckCollision s.grid
        ((handleKeys inp s.grid s.current).Move ⟨0, 1⟩) = true
    · rw [if_pos hc]
      have hl : lockOccurs inp s = true := by
        unfold lockOccurs; rw [hf, hc]; rfl
      obtain ⟨g', hcl, _⟩ := ClearLines_spec (lockedGrid inp s)
      obtain ⟨s', h, _, h3, _⟩ := lockAndSpawn_eq inp s _ _ g' hcl
      refine ⟨s', h, ?_⟩
      rw [h3, hlines, if_pos hl]
    · rw [if_neg hc]
      have hl : ¬ lockOccurs inp s = true := by
        unfold lockOccurs; rw [hf]; simpa using hc
      refine ⟨_, rfl, ?_⟩
      rw [hlines, if_neg hl]
      rfl
  · rw [if_neg hf]
    have hl : ¬ lockOccurs inp s = true := by
      unfold lockOccurs; simp [hf]
    refine ⟨_, rfl, ?_⟩
    rw [hlines, if_neg hl]
    rfl

/-- Without overflow the score after a `PLAYING` tick is the exact sum. -/
theorem scoreAfterLock_of_inRange (score : Int) (lines : Nat) (h1 : INT_MIN ≤ score)
    (h2 : score + 100 * (lines : Int) ≤ INT_MAX) :
    scoreAfterLock score lines = score + 100 * (lines : Int) := by
  unfold scoreAfterLock
  by_cases hl : lines > 0
  · rw [if_pos hl]
    exact wrapInt_of_inRange _ (by have : (0 : Int) ≤ (lines : Int) := Int.natCast_nonneg _; omega) h2
  · have : lines = 0 := by omega
    rw [if_neg hl, this]
    simp

/-- Locking cells into a grid without a full row completes at most as many
rows as there are cells. -/
theorem fullRowCount_LockCells_le (g : Grid) (color : Color) (cells : List Vector2)
    (hnf : ∀ y, y < ROWS → ¬ RowIsFull g y) :
    fullRowCount (LockCells color g cells) ≤ cells.length := by
  have hsub : (Finset.range ROWS).filter (fun y => RowIsFull (LockCells color g cells) y)
      ⊆ (cells.map (fun p => p.y.toNat)).toFinset := by
    intro y hy
    rw [Finset.mem_filter, Finset.mem_range] at hy
    obtain ⟨hyR, hfull⟩ := hy
    have hold := hnf y hyR
    unfold RowIsFull at hold
    push_neg at hold
    obtain ⟨x, hx, hz⟩ := hold
    have hnew := hfull x hx
    rw [cell_LockCells] at hnew
    by_cases hm : (⟨(x : Int), (y : Int)⟩ : Vector2) ∈ cells ∧ y < ROWS ∧ x < COLS
    · rw [List.mem_toFinset, List.mem_map]
      exact ⟨_, hm.1, by simp⟩
    · rw [if_neg hm] at hnew
      exact absurd hz hnew
  calc fullRowCount (LockCells color g cells)
      = ((Finset.range ROWS).filter
          (fun y => RowIsFull (LockCells color g cells) y)).card := rfl
    _ ≤ (cells.map (fun p => p.y.toNat)).toFinset.card := Finset.card_le_card hsub
    _ ≤ (cells.map (fun p => p.y.toNat)).length := List.toFinset_card_le _
    _ = cells.length := List.length_map _ _

/-- Writing a visible color into an empty cell of the 10x20 grid raises the
number of occupied cells by one. -/
theorem occupiedCount_setCell (g : Grid) (y x : Nat) (c : Color) (hy : y < ROWS)
    (hx : x < COLS) (hempty : (g.cell y x).a = 0) (hc : c.a ≠ 0) :
    occupiedCount (setCell g y x c) = occupiedCount g + 1 := by
  unfold occupiedCount
  have hset : (Finset.range ROWS ×ˢ Finset.range COLS).filter
        (fun p => ((setCell g y x c).cell p.1 p.2).a ≠ 0)
      = insert (y, x) ((Finset.range ROWS ×ˢ Finset.range COLS).filter
        (fun p => (g.cell p.1 p.2).a ≠ 0)) := by
    ext p
    obtain ⟨r, k⟩ := p
    simp only [Finset.mem_filter, Finset.mem_product, Finset.mem_range, Finset.mem_insert,
      cell_setCell, Prod.mk.injEq]
    by_cases hp : r = y ∧ k = x
    · obtain ⟨rfl, rfl⟩ := hp
      simp [hy, hx, hc]
    · rw [if_neg hp]
      simp [hp]
  rw [hset, Finset.card_insert_of_not_mem]
  simp [hempty]

/-- Locking distinct cells that are inside the bounds and empty raises the
number of occupied cells by the number of cells locked. -/
theorem occupiedCount_LockCells (color : Color) (hc : color.a ≠ 0) (cells : List Vector2) :
    ∀ g : Grid, cells.Nodup →
      (∀ p ∈ cells, 0 ≤ p.x ∧ p.x < COLS ∧ 0 ≤ p.y ∧ p.y < ROWS
        ∧ (g.cell p.y.toNat p.x.toNat).a = 0) →
      occupiedCount (LockCells color g cells) = occupiedCount g + cells.length := by
  induction cells with
  | nil => intro g _ _; rfl
  | cons b rest ih =>
    intro g hnd hcells
    obtain ⟨hb1, hb2, hb3, hb4, hb5⟩ := hcells b (List.mem_cons_self _ _)
    have hin : b.y ≥ 0 ∧ b.y < ROWS ∧ b.x ≥ 0 ∧ b.x < COLS := ⟨hb3, hb4, hb1, hb2⟩
    unfold LockCells
    rw [if_pos hin]
    have hnd2 := List.nodup_cons.mp hnd
    rw [ih _ hnd2.2, occupiedCount_setCell g _ _ color (by omega) (by omega) hb5 hc,
      List.length_cons]
    · omega
    · intro p hp
      obtain ⟨hp1, hp2, hp3, hp4, hp5⟩ := hcells p (List.mem_cons_of_mem _ hp)
      refine ⟨hp1, hp2, hp3, hp4, ?_⟩
      rw [cell_setCell]
      have hne : ¬ (p.y.toNat = b.y.toNat ∧ p.x.toNat = b.x.toNat) := by
        rintro ⟨h1, h2⟩
        apply hnd2.1
        have : p = b := by
          cases p; cases b
          simp only [Vector2.mk.injEq] at *
          omega
        rw [← this]
        exact hp
      rw [if_neg hne]
      exact hp5

/-- C17: in a reachable `PLAYING` state, when a tick locks the piece (the
tick then runs the lock block on the piece as the key handling left it), the
piece has four world cells, all different, each inside the 10x20 bounds and
on an empty cell of the grid before the lock; so `LockToGrid` skips no cell
and overwrites no occupied cell, and the number of occupied cells goes up
by exactly 4. -/
theorem lock_fills_four_empty_cells (inp : Input) (s : State) (h : Reachable s)
    (hs : s.currentState = GameState.PLAYING) (hl : lockOccurs inp s = true) :
    step inp s = lockAndSpawn inp s (handleKeys inp s.grid s.current)
    ∧ lockedGrid inp s = LockToGrid s.grid (handleKeys inp s.grid s.current)
    ∧ (handleKeys inp s.grid s.current).GetBlockPositions.length = 4
    ∧ (handleKeys inp s.grid s.current).GetBlockPositions.Nodup
    ∧ (∀ p ∈ (handleKeys inp s.grid s.current).GetBlockPositions,
        0 ≤ p.x ∧ p.x < 10 ∧ 0 ≤ p.y ∧ p.y < 20
        ∧ (s.grid.cell p.y.toNat p.x.toNat).a = 0)
    ∧ occupiedCount (lockedGrid inp s) = occupiedCount s.grid + 4 := by
  have hc := PieceOk_handleKeys inp s.grid s.current ((Reachable_Inv s h).2.2 hs)
  obtain ⟨hfree, hlen, hnd, hcol⟩ := hc
  have hlocked : lockedGrid inp s = LockToGrid s.grid (handleKeys inp s.grid s.current) := by
    unfold lockedGrid
    rw [Move_down_up]
  have hlen2 : (handleKeys inp s.grid s.current).GetBlockPositions.length = 4 := by
    simp [Tetromino.GetBlockPositions, hlen]
  have hnd2 : (handleKeys inp s.grid s.current).GetBlockPositions.Nodup := by
    unfold Tetromino.GetBlockPositions
    apply List.Nodup.map _ hnd
    intro a b hab
    cases a; cases b
    simp only [Vector2.mk.injEq, add_right_inj] at hab
    simp [hab.1, hab.2]
  have hcells := (CheckCollision_false_iff _ _).mp hfree
  have hstep : step inp s = lockAndSpawn inp s (handleKeys inp s.grid s.current) := by
    unfold step
    rw [hs]
    exact stepPlaying_lock inp s hl
  refine ⟨hstep, hlocked, hlen2, hnd2, hcells, ?_⟩
  rw [hlocked]
  unfold LockToGrid
  rw [occupiedCount_LockCells _ hcol _ _ hnd2 hcells, hlen2]

/-! ## The bar falling through a blank grid -/

theorem handleKeys_no_keys (inp : Input) (g : Grid) (t : Tetromino)
    (h1 : inp.keyLeft = false) (h2 : inp.keyRight = false) (h3 : inp.keyUp = false) :
    handleKeys inp g t = t := by
  simp [handleKeys, h1, h2, h3]

/-- A tick without keys whose downward move is free. -/
theorem step_fall_free (inp : Input) (s : State) (hs : s.currentState = GameState.PLAYING)
    (h1 : inp.keyLeft = false) (h2 : inp.keyRight = false) (h3 : inp.keyUp = false)
    (hf : fallDue inp s = true)
    (hc : CheckCollision s.grid (s.current.Move ⟨0, 1⟩) = false) :
    step inp s = some { s with current := s.current.Move ⟨0, 1⟩, fallTimer := 0 } := by
  unfold step
  rw [hs]
  simp only [stepPlaying, handleKeys_no_keys inp s.grid s.current h1 h2 h3, hf, hc, if_true]
  simp [hs]

/-- A tick without keys whose downward move is blocked. -/
theorem step_fall_blocked (inp : Input) (s : State) (hs : s.currentState = GameState.PLAYING)
    (h1 : inp.keyLeft = false) (h2 : inp.keyRight = false) (h3 : inp.keyUp = false)
    (hf : fallDue inp s = true)
    (hc : CheckCollision s.grid (s.current.Move ⟨0, 1⟩) = true) :
    lockOccurs inp s = true ∧ step inp s = lockAndSpawn inp s s.current := by
  have hl : lockOccurs inp s = true := by
    unfold lockOccurs
    rw [handleKeys_no_keys inp s.grid s.current h1 h2 h3, hf, hc]
    rfl
  refine ⟨hl, ?_⟩
  unfold step
  rw [hs]
  simp only
  rw [stepPlaying_lock inp s hl, handleKeys_no_keys inp s.grid s.current h1 h2 h3]

theorem barAt_zero : barAt 0 = CreateTetromino TetrominoType.I := rfl

theorem barAt_Move_down (k : Int) : (barAt k).Move ⟨0, 1⟩ = barAt (k + 1) := by
  simp [barAt, Tetromino.Move, CreateTetromino]

theorem barAt_cells (k : Int) :
    (barAt k).GetBlockPositions = [⟨4, k⟩, ⟨5, k⟩, ⟨3, k⟩, ⟨2, k⟩] := by
  simp [barAt, Tetromino.GetBlockPositions, CreateTetromino]

/-- The bar is free in a blank grid in each of the rows 0 to 19. -/
theorem barAt_free (g : Grid) (hg : ∀ y x, y < ROWS → x < COLS → (g.cell y x).a = 0)
    (k : Int) (h0 : 0 ≤ k) (h19 : k ≤ 19) : CheckCollision g (barAt k) = false := by
  rw [CheckCollision_false_iff, barAt_cells]
  have hR : ROWS = 20 := rfl
  have hC : COLS = 10 := rfl
  intro p hp
  simp only [List.mem_cons, List.mem_singleton, List.not_mem_nil, or_false] at hp
  have hb : 0 ≤ p.x ∧ p.x < COLS ∧ 0 ≤ p.y ∧ p.y < ROWS := by
    rcases hp with rfl | rfl | rfl | rfl <;> simp only <;> omega
  exact ⟨hb.1, hb.2.1, hb.2.2.1, hb.2.2.2, hg _ _ (by omega) (by omega)⟩

/-- Below row 19 the bar is out of bounds. -/
theorem barAt_blocked (g : Grid) : CheckCollision g (barAt 20) = true := by
  rw [CheckCollision, CheckCollisionCells_iff, barAt_cells]
  exact ⟨⟨4, 20⟩, List.mem_cons_self _ _, Or.inr (Or.inr (Or.inr (Or.inl (by decide))))⟩

theorem runTicks_append (a b : List Input) : ∀ s : State,
    runTicks (a ++ b) s = (runTicks a s).bind (runTicks b) := by
  induction a with
  | nil => intro s; rfl
  | cons inp rest ih =>
    intro s
    simp only [List.cons_append, runTicks]
    cases step inp s with
    | none => rfl
    | some s1 => exact ih s1

theorem Reachable_runTicks (inps : List Input) : ∀ s s' : State, Reachable s →
    runTicks inps s = some s' → Reachable s' := by
  induction inps with
  | nil =>
    intro s s' hr h
    simp only [runTicks, Option.some.injEq] at h
    rw [← h]; exact hr
  | cons inp rest ih =>
    intro s s' hr h
    simp only [runTicks] at h
    cases hstep : step inp s with
    | none => rw [hstep] at h; cases h
    | some s1 =>
      rw [hstep] at h
      exact ih s1 s' (Reachable.next inp s s1 hr hstep) h

theorem attemptsDownEachTick_append (a b : List Input) : ∀ s s' : State,
    attemptsDownEachTick (a ++ b) s → runTicks a s = some s' →
    attemptsDownEachTick a s ∧ attemptsDownEachTick b s' := by
  induction a with
  | nil =>
    intro s s' h hrun
    simp only [runTicks, Option.some.injEq] at hrun
    subst hrun
    exact ⟨trivial, h⟩
  | cons inp rest ih =>
    intro s s' h hrun
    simp only [List.cons_append, attemptsDownEachTick] at h
    obtain ⟨h1, h2, h3, h4, h5⟩ := h
    simp only [runTicks] at hrun
    cases hstep : step inp s with
    | none => rw [hstep] at hrun; cases hrun
    | some s1 =>
      rw [hstep] at hrun
      obtain ⟨ha, hb⟩ := ih s1 s' (h5 s1 hstep) hrun
      refine ⟨⟨h1, h2, h3, h4, ?_⟩, hb⟩
      intro s2 hs2
      rw [hstep] at hs2
      simp only [Option.some.injEq] at hs2
      subst hs2
      exact ha

/-- Ticks that hold the down key and no other key attempt the downward
move each time. -/
theorem attemptsDownEachTick_of_keyDown (inps : List Input)
    (h : ∀ inp ∈ inps, inp.keyLeft = false ∧ inp.keyRight = false ∧ inp.keyUp = false
      ∧ inp.keyDown = true) : ∀ s : State, attemptsDownEachTick inps s := by
  induction inps with
  | nil => intro s; trivial
  | cons inp rest ih =>
    intro s
    obtain ⟨h1, h2, h3, h4⟩ := h inp (List.mem_cons_self _ _)
    refine ⟨h1, h2, h3, ?_, fun s' _ => ih (fun i hi => h i (List.mem_cons_of_mem _ hi)) s'⟩
    unfold fallDue
    rw [h4, Bool.or_true]

/-- The bar in row `k` of a blank grid falls one row per tick, as long as
it stays above the floor. -/
theorem runTicks_bar_falls (n : Nat) : ∀ (k : Nat) (s : State) (inps : List Input),
    k + n ≤ 19 → s.currentState = GameState.PLAYING → s.current = barAt k →
    (∀ y x, y < ROWS → x < COLS → (s.grid.cell y x).a = 0) →
    inps.length = n → attemptsDownEachTick inps s →
    runTicks inps s
      = some (if n = 0 then s
          else { s with current := barAt ((k + n : Nat) : Int), fallTimer := 0 }) := by
  induction n with
  | zero =>
    intro k s inps _ _ _ _ hlen _
    rw [List.length_eq_zero.mp hlen]
    rfl
  | succ n ih =>
    intro k s inps hk hs hc hg hlen hatt
    cases inps with
    | nil => simp at hlen
    | cons inp rest =>
      simp only [List.length_cons, Nat.add_right_cancel_iff] at hlen
      obtain ⟨h1, h2, h3, h4, h5⟩ := hatt
      have hfree : CheckCollision s.grid (s.current.Move ⟨0, 1⟩) = false := by
        rw [hc, barAt_Move_down]
        exact barAt_free s.grid hg _ (by omega) (by omega)
      have hstep := step_fall_free inp s hs h1 h2 h3 h4 hfree
      rw [hc, barAt_Move_down] at hstep
      have hcast : ((k : Int) + 1) = ((k + 1 : Nat) : Int) := by push_cast; ring
      rw [hcast] at hstep
      simp only [runTicks, hstep, Option.some_bind]
      rw [ih (k + 1) { s with current := barAt ((k + 1 : Nat) : Int), fallTimer := 0 } rest
        (by omega) hs rfl hg hlen (h5 _ hstep)]
      have hne : ¬ (n + 1 = 0) := by omega
      rw [if_neg hne]
      by_cases hn : n = 0
      · subst hn
        simp
      · rw [if_neg hn]
        have : k + 1 + n = k + (n + 1) := by omega
        simp [this]

theorem attemptsDownEachTick_take (inps : List Input) : ∀ (k : Nat) (s : State),
    attemptsDownEachTick inps s → attemptsDownEachTick (inps.take k) s := by
  induction inps with
  | nil => intro k s _; simp [attemptsDownEachTick]
  | cons inp rest ih =>
    intro k s h
    cases k with
    | zero => simp [attemptsDownEachTick]
    | succ k =>
      obtain ⟨h1, h2, h3, h4, h5⟩ := h
      exact ⟨h1, h2, h3, h4, fun s' hs' => ih k s' (h5 s' hs')⟩

/-- The grid after the bar is locked in row 19. -/
theorem cell_LockToGrid_bar (g : Grid) (r k : Nat) :
    (LockToGrid g (barAt 19)).cell r k
      = if r = 19 ∧ 2 ≤ k ∧ k ≤ 5 then SKYBLUE else g.cell r k := by
  unfold LockToGrid
  rw [cell_LockCells, barAt_cells]
  have hiff : ((⟨(k : Int), (r : Int)⟩ : Vector2) ∈
        ([⟨4, 19⟩, ⟨5, 19⟩, ⟨3, 19⟩, ⟨2, 19⟩] : List Vector2) ∧ r < ROWS ∧ k < COLS)
      ↔ (r = 19 ∧ 2 ≤ k ∧ k ≤ 5) := by
    simp only [List.mem_cons, List.mem_singleton, List.not_mem_nil, or_false,
      Vector2.mk.injEq, ROWS, COLS]
    omega
  by_cases h : r = 19 ∧ 2 ≤ k ∧ k ≤ 5
  · rw [if_pos h, if_pos (hiff.mpr h)]; rfl
  · rw [if_neg h, if_neg (fun h2 => h (hiff.mp h2))]

/-- C13: from a `PLAYING` state with a blank 10x20 grid and the bar
`CreateTetromino(I)` at origin `(4, 0)`, twenty ticks without left, right or
rotate key that each attempt the downward move go as follows.  After `k`
ticks, for every `k` up to 19, the bar is at origin `(4, k)` and grid and
score are untouched, so the first 19 attempts succeed and bring the bar to
row 19.  The 20th attempt is blocked and locks the bar: afterwards columns
2, 3, 4, 5 of row 19 hold the bar's color, every other cell of the grid is
empty, and the score is what it was. -/
theorem bar_drops_twenty_ticks (s : State) (inps : List Input)
    (hs : s.currentState = GameState.PLAYING)
    (hg : ∀ y x, y < ROWS → x < COLS → (s.grid.cell y x).a = 0)
    (hc : s.current = CreateTetromino TetrominoType.I)
    (hlen : inps.length = 20) (hatt : attemptsDownEachTick inps s) :
    (∀ k : Nat, k ≤ 19 → ∃ sk, runTicks (inps.take k) s = some sk
        ∧ sk.currentState = GameState.PLAYING
        ∧ sk.current = { CreateTetromino TetrominoType.I with position := ⟨4, (k : Int)⟩ }
        ∧ sk.grid = s.grid ∧ sk.gameScore = s.gameScore)
    ∧ ∃ s19 inp20 s20, runTicks (inps.take 19) s = some s19
        ∧ inps[19]? = some inp20
        ∧ lockOccurs inp20 s19 = true
        ∧ lockedGrid inp20 s19 = LockToGrid s.grid (barAt 19)
        ∧ runTicks inps s = some s20
        ∧ (∀ x, 2 ≤ x → x ≤ 5 → s20.grid.cell 19 x = (CreateTetromino TetrominoType.I).color)
        ∧ (∀ y x, y < ROWS → x < COLS → ¬ (y = 19 ∧ 2 ≤ x ∧ x ≤ 5) →
            (s20.grid.cell y x).a = 0)
        ∧ s20.gameScore.GetScore = s.gameScore.GetScore := by
  have hrun : ∀ k : Nat, k ≤ 19 → runTicks (inps.take k) s
      = some (if k = 0 then s
          else { s with current := barAt ((0 + k : Nat) : Int), fallTimer := 0 }) := by
    intro k hk
    exact runTicks_bar_falls k 0 s (inps.take k) (by omega) hs (by rw [hc]; rfl) hg
      (by rw [List.length_take]; omega) (attemptsDownEachTick_take inps k s hatt)
  constructor
  · intro k hk
    refine ⟨_, hrun k hk, ?_⟩
    by_cases h0 : k = 0
    · subst h0
      rw [if_pos rfl]
      exact ⟨hs, by rw [hc]; rfl, rfl, rfl⟩
    · rw [if_neg h0, Nat.zero_add]
      exact ⟨hs, rfl, rfl, rfl⟩
  · have h19 := hrun 19 (le_refl _)
    rw [if_neg (by decide)] at h19
    have hsplit : inps = inps.take 19 ++ inps.drop 19 := (List.take_append_drop 19 inps).symm
    obtain ⟨inp20, hdrop⟩ : ∃ inp20, inps.drop 19 = [inp20] := by
      have hl : (inps.drop 19).length = 1 := by rw [List.length_drop]; omega
      match hd : inps.drop 19, hl with
      | [a], _ => exact ⟨a, rfl⟩
    have hget : inps[19]? = some inp20 := by
      rw [← List.head?_drop, hdrop]
      rfl
    have hatt2 : attemptsDownEachTick (inps.take 19 ++ [inp20]) s := by
      rw [← hdrop, ← hsplit]; exact hatt
    obtain ⟨h1, h2, h3, h4, _⟩ :=
      (attemptsDownEachTick_append _ _ s _ hatt2 h19).2
    have hblocked : CheckCollision s.grid
        ((barAt ((0 + 19 : Nat) : Int)).Move ⟨0, 1⟩) = true := by
      rw [barAt_Move_down]
      exact barAt_blocked s.grid
    obtain ⟨hlock, hstep⟩ := step_fall_blocked inp20
      { s with current := barAt ((0 + 19 : Nat) : Int), fallTimer := 0 } hs h1 h2 h3 h4 hblocked
    have hcell := cell_LockToGrid_bar s.grid
    have hnf : ∀ y, y < ROWS → ¬ RowIsFull (LockToGrid s.grid (barAt 19)) y := by
      intro y hy hfull
      have h0 := hfull 0 (by decide)
      rw [hcell] at h0
      simp at h0
      exact h0 (hg y 0 hy (by decide))
    have hclear := ClearLines_no_full _ hnf
    obtain ⟨s20, e1, _, e3, e4, _⟩ := lockAndSpawn_eq inp20
      { s with current := barAt ((0 + 19 : Nat) : Int), fallTimer := 0 }
      (barAt ((0 + 19 : Nat) : Int)) 0 _ hclear
    refine ⟨_, inp20, s20, h19, hget, hlock, ?_, ?_, ?_, ?_, ?_⟩
    · unfold lockedGrid
      rw [Move_down_up, handleKeys_no_keys _ _ _ h1 h2 h3]
      rfl
    · rw [hsplit, hdrop, runTicks_append, h19]
      simp only [Option.some_bind, runTicks]
      rw [hstep, e1]
      rfl
    · intro x hx2 hx5
      rw [e4]
      show (LockToGrid s.grid (barAt 19)).cell 19 x = _
      rw [hcell, if_pos ⟨rfl, hx2, hx5⟩]
      rfl
    · intro y x hy hx hne
      rw [e4]
      show ((LockToGrid s.grid (barAt 19)).cell y x).a = 0
      rw [hcell, if_neg hne]
      exact hg y x hy hx
    · rw [e3]
      simp [scoreAfterLock, Subject.GetScore]

/-- Witness for C13: twenty ticks with only the down key held, from
`stateBarAtTop`. -/
theorem bar_drops_twenty_ticks_witness :
    (stateBarAtTop.currentState = GameState.PLAYING
      ∧ (∀ y x, y < ROWS → x < COLS → (stateBarAtTop.grid.cell y x).a = 0)
      ∧ stateBarAtTop.current = CreateTetromino TetrominoType.I
      ∧ (List.replicate 20 inputDown).length = 20
      ∧ attemptsDownEachTick (List.replicate 20 inputDown) stateBarAtTop)
    ∧ (∀ k : Nat, k ≤ 19 → ∃ sk,
        runTicks ((List.replicate 20 inputDown).take k) stateBarAtTop = some sk
        ∧ sk.currentState = GameState.PLAYING
        ∧ sk.current = { CreateTetromino TetrominoType.I with position := ⟨4, (k : Int)⟩ }
        ∧ sk.grid = stateBarAtTop.grid ∧ sk.gameScore = stateBarAtTop.gameScore)
    ∧ ∃ s19 inp20 s20, runTicks ((List.replicate 20 inputDown).take 19) stateBarAtTop = some s19
        ∧ (List.replicate 20 inputDown)[19]? = some inp20
        ∧ lockOccurs inp20 s19 = true
        ∧ lockedGrid inp20 s19 = LockToGrid stateBarAtTop.grid (barAt 19)
        ∧ runTicks (List.replicate 20 inputDown) stateBarAtTop = some s20
        ∧ (∀ x, 2 ≤ x → x ≤ 5 → s20.grid.cell 19 x = (CreateTetromino TetrominoType.I).color)
        ∧ (∀ y x, y < ROWS → x < COLS → ¬ (y = 19 ∧ 2 ≤ x ∧ x ≤ 5) →
            (s20.grid.cell y x).a = 0)
        ∧ s20.gameScore.GetScore = stateBarAtTop.gameScore.GetScore := by
  have hatt : attemptsDownEachTick (List.replicate 20 inputDown) stateBarAtTop :=
    attemptsDownEachTick_of_keyDown _
      (fun inp hinp => by rw [List.eq_of_mem_replicate hinp]; exact ⟨rfl, rfl, rfl, rfl⟩) _
  exact ⟨⟨rfl, fun _ _ _ _ => rfl, rfl, rfl, hatt⟩,
    bar_drops_twenty_ticks stateBarAtTop (List.replicate 20 inputDown) rfl
      (fun _ _ _ _ => rfl) rfl rfl hatt⟩

theorem stateBarStarted_reachable : Reachable stateBarStarted :=
  Reachable.next inputPlayBar (initialState TetrominoType.I ⟨0, 0⟩ BLANK) stateBarStarted
    (Reachable.initial _ _ _) rfl

/-- The bar of `stateBarStarted` reaches row 19 after 19 ticks with the
down key held. -/
theorem stateBarAtBottom_reachable : Reachable stateBarAtBottom := by
  have hblank : ∀ y x, y < ROWS → x < COLS → (stateBarStarted.grid.cell y x).a = 0 := by
    unfold stateBarStarted stepMenu
    rw [if_pos (by decide)]
    intro y x hy hx
    dsimp only
    rw [cell_resetGrid]
    simp [hy, hx, BLANK]
  have hrun := runTicks_bar_falls 19 0 stateBarStarted (List.replicate 19 inputDown)
    (by omega) (by decide) (by decide) hblank rfl
    (attemptsDownEachTick_of_keyDown _
      (fun inp hinp => by rw [List.eq_of_mem_replicate hinp]; exact ⟨rfl, rfl, rfl, rfl⟩) _)
  rw [if_neg (by decide)] at hrun
  exact Reachable_runTicks _ _ _ stateBarStarted_reachable hrun

theorem stateBarAtBottom_locks :
    stateBarAtBottom.currentState = GameState.PLAYING
    ∧ lockOccurs inputDown stateBarAtBottom = true := by
  constructor
  · decide
  · unfold lockOccurs fallDue
    rw [show inputDown.keyDown = true from rfl, Bool.or_true, Bool.true_and]
    decide

/-- Witness for C17: the bar of `stateBarAtBottom` rests on the floor of a
blank grid, and the next tick with the down key held locks it. -/
theorem lock_fills_four_empty_cells_witness :
    (Reachable stateBarAtBottom
      ∧ stateBarAtBottom.currentState = GameState.PLAYING
      ∧ lockOccurs inputDown stateBarAtBottom = true)
    ∧ step inputDown stateBarAtBottom
        = lockAndSpawn inputDown stateBarAtBottom
            (handleKeys inputDown stateBarAtBottom.grid stateBarAtBottom.current)
    ∧ lockedGrid inputDown stateBarAtBottom
        = LockToGrid stateBarAtBottom.grid
            (handleKeys inputDown stateBarAtBottom.grid stateBarAtBottom.current)
    ∧ (handleKeys inputDown stateBarAtBottom.grid
          stateBarAtBottom.current).GetBlockPositions.length = 4
    ∧ (handleKeys inputDown stateBarAtBottom.grid
          stateBarAtBottom.current).GetBlockPositions.Nodup
    ∧ (∀ p ∈ (handleKeys inputDown stateBarAtBottom.grid
          stateBarAtBottom.current).GetBlockPositions,
        0 ≤ p.x ∧ p.x < 10 ∧ 0 ≤ p.y ∧ p.y < 20
        ∧ (stateBarAtBottom.grid.cell p.y.toNat p.x.toNat).a = 0)
    ∧ occupiedCount (lockedGrid inputDown stateBarAtBottom)
        = occupiedCount stateBarAtBottom.grid + 4 :=
  ⟨⟨stateBarAtBottom_reachable, stateBarAtBottom_locks⟩,
    lock_fills_four_empty_cells inputDown stateBarAtBottom stateBarAtBottom_reachable
      stateBarAtBottom_locks.1 stateBarAtBottom_locks.2⟩

/-! ## The score as a 32-bit `int` -/

/-- C10, amended: in every `PLAYING` tick that does not take the `int` score
out of its range (the score before is at least `INT_MIN` and the exact sum
is at most `INT_MAX`), the score after the tick is the score before plus 100
times the number of lines `ClearLines` removed in the tick (0 when no lock
happened), so it does not decrease; that number is the number of full rows
of the grid right after the lock, so a lock that completes exactly one row
raises the score by exactly 100. -/
theorem playing_tick_score (inp : Input) (s : State)
    (hs : s.currentState = GameState.PLAYING)
    (hlo : INT_MIN ≤ s.gameScore.GetScore)
    (hhi : s.gameScore.GetScore + 100 * (linesClearedThisTick inp s : Int) ≤ INT_MAX) :
    ∃ s', step inp s = some s'
      ∧ s'.gameScore.GetScore
          = s.gameScore.GetScore + 100 * (linesClearedThisTick inp s : Int)
      ∧ s.gameScore.GetScore ≤ s'.gameScore.GetScore
      ∧ linesClearedThisTick inp s
          = (if lockOccurs inp s then fullRowCount (lockedGrid inp s) else 0)
      ∧ (lockOccurs inp s = true → fullRowCount (lockedGrid inp s) = 1 →
          s'.gameScore.GetScore = s.gameScore.GetScore + 100) := by
  have hlines := linesClearedThisTick_eq inp s
  obtain ⟨s', h1, h2⟩ := step_playing_score inp s hs
  rw [scoreAfterLock_of_inRange _ _ hlo hhi] at h2
  refine ⟨s', h1, h2, ?_, hlines, ?_⟩
  · rw [h2]
    have : (0 : Int) ≤ (linesClearedThisTick inp s : Int) := Int.natCast_nonneg _
    omega
  · intro hl hone
    rw [h2, hlines, if_pos hl, hone]
    rfl

/-- The tick of `playing_tick_score_witness` does lock, and the lock
completes exactly one row. -/
theorem stateBarOverGap_locks :
    lockOccurs inputDown stateBarOverGap = true
    ∧ fullRowCount (lockedGrid inputDown stateBarOverGap) = 1 := by
  constructor
  · unfold lockOccurs fallDue
    rw [show inputDown.keyDown = true from rfl, Bool.or_true, Bool.true_and]
    decide
  · decide

theorem stateBarOverGap_lines : linesClearedThisTick inputDown stateBarOverGap = 1 := by
  rw [linesClearedThisTick_eq, if_pos stateBarOverGap_locks.1, stateBarOverGap_locks.2]

/-- Witness for C10: the bar dropped into the gap of the bottom row
completes that row, and the tick takes the score from 300 to 400. -/
theorem playing_tick_score_witness :
    (stateBarOverGap.currentState = GameState.PLAYING
      ∧ INT_MIN ≤ stateBarOverGap.gameScore.GetScore
      ∧ stateBarOverGap.gameScore.GetScore
          + 100 * (linesClearedThisTick inputDown stateBarOverGap : Int) ≤ INT_MAX
      ∧ lockOccurs inputDown stateBarOverGap = true
      ∧ fullRowCount (lockedGrid inputDown stateBarOverGap) = 1)
    ∧ ∃ s', step inputDown stateBarOverGap = some s'
      ∧ s'.gameScore.GetScore
          = stateBarOverGap.gameScore.GetScore
            + 100 * (linesClearedThisTick inputDown stateBarOverGap : Int)
      ∧ stateBarOverGap.gameScore.GetScore ≤ s'.gameScore.GetScore
      ∧ linesClearedThisTick inputDown stateBarOverGap
          = (if lockOccurs inputDown stateBarOverGap
              then fullRowCount (lockedGrid inputDown stateBarOverGap) else 0)
      ∧ s'.gameScore.GetScore = 300 + 100 := by
  have hlo : INT_MIN ≤ stateBarOverGap.gameScore.GetScore := by decide
  have hhi : stateBarOverGap.gameScore.GetScore
      + 100 * (linesClearedThisTick inputDown stateBarOverGap : Int) ≤ INT_MAX := by
    rw [stateBarOverGap_lines]
    decide
  obtain ⟨s', h1, h2, h3, h4, h5⟩ := playing_tick_score inputDown stateBarOverGap rfl hlo hhi
  exact ⟨⟨rfl, hlo, hhi, stateBarOverGap_locks⟩, s', h1, h2, h3, h4,
    h5 stateBarOverGap_locks.1 stateBarOverGap_locks.2⟩

/-- What one iteration of the main loop does to the score: `SetScore(0)` on
Play, the `int` sum on a `PLAYING` tick, nothing otherwise. -/
theorem step_score (inp : Input) (s s' : State) (h : step inp s = some s') :
    (s.currentState ≠ GameState.PLAYING
      ∧ (s'.gameScore.GetScore = 0 ∨ s'.gameScore.GetScore = s.gameScore.GetScore))
    ∨ (s.currentState = GameState.PLAYING
      ∧ s'.gameScore.GetScore
          = scoreAfterLock s.gameScore.GetScore (linesClearedThisTick inp s)) := by
  cases hs : s.currentState with
  | PLAYING =>
    obtain ⟨s2, h1, h2⟩ := step_playing_score inp s hs
    rw [h1] at h
    simp only [Option.some.injEq] at h
    subst h
    exact Or.inr ⟨rfl, h2⟩
  | MENU =>
    refine Or.inl ⟨fun hc => (by cases hc), ?_⟩
    unfold step at h
    rw [hs] at h
    simp only [Option.some.injEq] at h
    subst h
    unfold stepMenu
    by_cases hb : CheckButton inp 160 300 160 60 = true
    · rw [if_pos hb]; exact Or.inl rfl
    · rw [if_neg hb]; exact Or.inr rfl
  | GAME_OVER =>
    refine Or.inl ⟨fun hc => (by cases hc), ?_⟩
    unfold step at h
    rw [hs] at h
    simp only [Option.some.injEq] at h
    subst h
    unfold stepGameOver
    by_cases hb : CheckButton inp 140 450 200 60 = true
    · rw [if_pos hb]; exact Or.inr rfl
    · rw [if_neg hb]; exact Or.inr rfl

theorem ReachableInRange_Reachable (s : State) (h : ReachableInRange s) : Reachable s := by
  induction h with
  | initial type position color => exact Reachable.initial _ _ _
  | next inp s s' _ _ hstep ih => exact Reachable.next inp s s' ih hstep

/-- C16, amended: in every state reached from the initial state (`MENU`,
score 0) by iterations of the main loop none of which takes the `int` score
beyond `INT_MAX`, the score is not negative. -/
theorem score_nonneg (s : State) (h : ReachableInRange s) : 0 ≤ s.gameScore.GetScore := by
  induction h with
  | initial type position color => exact le_refl _
  | next inp s s' hr hrange hstep ih =>
    have hmin : INT_MIN ≤ s.gameScore.GetScore := by
      have : INT_MIN ≤ (0 : Int) := by decide
      omega
    rcases step_score inp s s' hstep with ⟨_, h0 | h0⟩ | ⟨hs, h0⟩
    · rw [h0]
    · rw [h0]; exact ih
    · rw [h0, scoreAfterLock_of_inRange _ _ hmin (hrange hs)]
      have : (0 : Int) ≤ (linesClearedThisTick inp s : Int) := Int.natCast_nonneg _
      omega

/-- A piece has four blocks and the grid between two ticks has no full row,
so one lock completes at most four rows. -/
theorem linesClearedThisTick_le_four (inp : Input) (s : State) (hinv : Inv s)
    (hs : s.currentState = GameState.PLAYING) : linesClearedThisTick inp s ≤ 4 := by
  obtain ⟨hrows, _, hpiece⟩ := hinv
  rw [linesClearedThisTick_eq]
  by_cases hl : lockOccurs inp s = true
  · rw [if_pos hl]
    have hc := PieceOk_handleKeys inp s.grid s.current (hpiece hs)
    have := fullRowCount_LockCells_le s.grid
      (handleKeys inp s.grid s.current).color
      (handleKeys inp s.grid s.current).GetBlockPositions hrows
    unfold lockedGrid
    rw [Move_down_up]
    unfold LockToGrid
    have hlen : (handleKeys inp s.grid s.current).GetBlockPositions.length = 4 := by
      simp [Tetromino.GetBlockPositions, hc.2.1]
    omega
  · rw [if_neg hl]
    omega

/-- C20, amended: in every reachable state the grid has no full row;
consequently a `PLAYING` tick from such a state clears at most 4 lines, and
unless the tick takes the `int` score beyond `INT_MAX` the score it adds is
one of 0, 100, 200, 300, 400. -/
theorem no_full_row_between_ticks (s : State) (h : Reachable s) :
    (∀ y, y < ROWS → ¬ RowIsFull s.grid y)
    ∧ ∀ inp, s.currentState = GameState.PLAYING →
        linesClearedThisTick inp s ≤ 4
        ∧ ∃ s', step inp s = some s'
          ∧ (s.gameScore.GetScore + 100 * (linesClearedThisTick inp s : Int) ≤ INT_MAX →
              (s'.gameScore.GetScore - s.gameScore.GetScore = 0
              ∨ s'.gameScore.GetScore - s.gameScore.GetScore = 100
              ∨ s'.gameScore.GetScore - s.gameScore.GetScore = 200
              ∨ s'.gameScore.GetScore - s.gameScore.GetScore = 300
              ∨ s'.gameScore.GetScore - s.gameScore.GetScore = 400)) := by
  obtain ⟨hrows, hrange, hpiece⟩ := Reachable_Inv s h
  refine ⟨hrows, ?_⟩
  intro inp hs
  have hle := linesClearedThisTick_le_four inp s ⟨hrows, hrange, hpiece⟩ hs
  refine ⟨hle, ?_⟩
  obtain ⟨s', h1, h2⟩ := step_playing_score inp s hs
  refine ⟨s', h1, ?_⟩
  intro hhi
  rw [h2, scoreAfterLock_of_inRange _ _ hrange.1 hhi]
  have : linesClearedThisTick inp s = 0 ∨ linesClearedThisTick inp s = 1
      ∨ linesClearedThisTick inp s = 2 ∨ linesClearedThisTick inp s = 3
      ∨ linesClearedThisTick inp s = 4 := by omega
  rcases this with h0 | h0 | h0 | h0 | h0 <;> rw [h0] <;> simp

/-! ## Two cleared rows per round: a run that overflows the score -/

theorem Grid_ext (g1 g2 : Grid) (h : ∀ r k, g1.cell r k = g2.cell r k) : g1 = g2 := by
  cases g1 with
  | mk c1 =>
    cases g2 with
    | mk c2 =>
      have : c1 = c2 := funext (fun r => funext (fun k => h r k))
      rw [this]

theorem cell_of_gridRows_eq (g1 g2 : Grid) (n : Nat) (h : gridRows g1 n = gridRows g2 n)
    (r k : Nat) (hr : r < n) (hk : k < COLS) : g1.cell r k = g2.cell r k := by
  unfold gridRows at h
  have h1 := (List.map_inj_left.mp h) r (List.mem_range.mpr hr)
  unfold rowCells at h1
  exact (List.map_inj_left.mp h1) k (List.mem_range.mpr hk)

/-- Locking a piece changes no cell outside the 10x20 bounds. -/
theorem cell_gridSquares_outside (j : Nat) : ∀ r k, ¬ (r < ROWS ∧ k < COLS) →
    (gridSquares j).cell r k = BLANK := by
  induction j with
  | zero => intro r k _; rfl
  | succ j ih =>
    intro r k h
    simp only [gridSquares, LockToGrid]
    rw [cell_LockCells, if_neg (fun hc => h hc.2)]
    exact ih r k h

theorem resetGrid_emptyGrid : resetGrid emptyGrid = emptyGrid := by
  apply Grid_ext
  intro r k
  rw [cell_resetGrid]
  by_cases h : r < ROWS ∧ k < COLS
  · rw [if_pos h]; rfl
  · rw [if_neg h]

/-- Five squares side by side fill rows 18 and 19; `ClearLines` removes both
and leaves the blank grid. -/
theorem ClearLines_gridSquares_five : ClearLines (gridSquares 5) = some (2, emptyGrid) := by
  obtain ⟨g', h1, h2, h3, h4⟩ := ClearLines_spec (gridSquares 5)
  have hcount : fullRowCount (gridSquares 5) = 2 := by decide
  have hrows : List.replicate (fullRowCount (gridSquares 5)) blankRow
      ++ (gridRows (gridSquares 5) ROWS).filter (fun row => !fullRow row)
      = gridRows emptyGrid ROWS := by decide
  rw [hrows] at h2
  have hg : g' = emptyGrid := by
    apply Grid_ext
    intro r k
    by_cases hr : r < ROWS
    · by_cases hk : k < COLS
      · exact cell_of_gridRows_eq g' emptyGrid ROWS h2 r k hr hk
      · rw [h4 r k (by omega), cell_gridSquares_outside 5 r k (fun hc => hk hc.2)]
        rfl
    · rw [h3 r k (by omega), cell_gridSquares_outside 5 r k (fun hc => hr hc.1)]
      rfl
  rw [h1, hcount, hg]

/-- A tick with the down key held whose move is free. -/
theorem step_keyDown_free (inp : Input) (s : State) (q : Tetromino)
    (hs : s.currentState = GameState.PLAYING) (hd : inp.keyDown = true)
    (hq : (handleKeys inp s.grid s.current).Move ⟨0, 1⟩ = q)
    (hc : CheckCollision s.grid q = false) :
    step inp s = some { s with current := q, fallTimer := 0 } := by
  have hf : fallDue inp s = true := by
    unfold fallDue; rw [hd, Bool.or_true]
  unfold step
  rw [hs]
  simp only [stepPlaying, hf, hq, hc, if_true]
  simp [hs]

/-- A checked falling path is what the main loop does on its inputs. -/
theorem runTicks_fallPath (path : List (Input × Tetromino)) : ∀ (p : Tetromino) (s : State),
    s.currentState = GameState.PLAYING → s.current = p → fallPathOk s.grid p path = true →
    ∃ s', runTicks (path.map Prod.fst) s = some s'
      ∧ s'.currentState = GameState.PLAYING ∧ s'.grid = s.grid
      ∧ s'.current = pathEnd p path ∧ s'.gameScore = s.gameScore := by
  induction path with
  | nil =>
    intro p s hs hp _
    exact ⟨s, rfl, hs, rfl, hp, rfl⟩
  | cons head rest ih =>
    intro p s hs hp hok
    obtain ⟨inp, q⟩ := head
    simp only [fallPathOk, Bool.and_eq_true, decide_eq_true_eq, Bool.not_eq_true',
      ] at hok
    obtain ⟨⟨⟨hd, hq⟩, hc⟩, hrest⟩ := hok
    rw [← hp] at hq
    have hstep := step_keyDown_free inp s q hs hd hq hc
    obtain ⟨s', h1, h2, h3, h4, h5⟩ :=
      ih q { s with current := q, fallTimer := 0 } hs rfl hrest
    refine ⟨s', ?_, h2, h3, h4, h5⟩
    simp only [List.map_cons, runTicks, hstep, Option.some_bind]
    exact h1

theorem squarePath_ok : ∀ j, j < 5 →
    fallPathOk (gridSquares j) (CreateTetromino TetrominoType.O) (squarePath j) = true
    ∧ pathEnd (CreateTetromino TetrominoType.O) (squarePath j) = squareAt (2 * (j : Int)) 18 := by
  decide

theorem squares_lock_facts : ∀ j, j < 5 →
    CheckCollision (gridSquares j) ((squareAt (2 * (j : Int)) 18).Move ⟨0, 1⟩) = true
    ∧ (j < 4 → (∀ y, y < ROWS → ¬ RowIsFull (gridSquares (j + 1)) y)
        ∧ CheckCollision (gridSquares (j + 1)) (CreateTetromino TetrominoType.O) = false) := by
  decide

/-- The fresh square is brought down to its place on the floor. -/
theorem fall_round (j : Nat) (hj : j < 5) (v : Int) (s : State) (h : AtRound j v s) :
    ∃ s', OnFloor j v s' := by
  obtain ⟨hr, hs, hc, hg, hv⟩ := h
  obtain ⟨hok, hend⟩ := squarePath_ok j hj
  rw [← hg] at hok
  obtain ⟨s', h1, h2, h3, h4, h5⟩ := runTicks_fallPath (squarePath j) _ s hs hc hok
  exact ⟨s', Reachable_runTicks _ s s' hr h1, h2, by rw [h4, hend], by rw [h3, hg],
    by rw [Subject.GetScore, h5]; exact hv⟩

/-- The tick that locks the square on the floor, with what it does to grid,
piece, state and score. -/
theorem lock_on_floor (j : Nat) (hj : j < 5) (v : Int) (s : State) (h : OnFloor j v s)
    (lines : Nat) (cleared : Grid)
    (hcl : ClearLines (gridSquares (j + 1)) = some (lines, cleared))
    (hfree : CheckCollision cleared (CreateTetromino TetrominoType.O) = false) :
    ∃ s', step inputDown s = some s' ∧ Reachable s'
      ∧ s'.currentState = GameState.PLAYING
      ∧ s'.current = CreateTetromino TetrominoType.O ∧ s'.grid = cleared
      ∧ s'.gameScore.GetScore = scoreAfterLock v lines
      ∧ linesClearedThisTick inputDown s = lines := by
  obtain ⟨hr, hs, hc, hg, hv⟩ := h
  have hblocked : CheckCollision s.grid (s.current.Move ⟨0, 1⟩) = true := by
    rw [hg, hc]; exact (squares_lock_facts j hj).1
  obtain ⟨hlock, hstep⟩ := step_fall_blocked inputDown s hs rfl rfl rfl
    (by unfold fallDue; rw [show inputDown.keyDown = true from rfl, Bool.or_true]) hblocked
  have hcl2 : ClearLines (LockToGrid s.grid s.current) = some (lines, cleared) := by
    rw [hg, hc]; exact hcl
  obtain ⟨s', e1, e2, e3, e4, e5, e6⟩ := lockAndSpawn_eq inputDown s s.current lines cleared hcl2
  have hstep2 : step inputDown s = some s' := by rw [hstep, e1]
  have hplay : s'.currentState = GameState.PLAYING := by
    rcases e2 with e2 | e2
    · rw [e2, hs]
    · have := e6.mp e2
      rcases this with h1 | h1
      · rw [show inputDown.randomType = TetrominoType.O from rfl, hfree] at h1
        cases h1
      · rw [hs] at h1; cases h1
  refine ⟨s', hstep2, Reachable.next inputDown s s' hr hstep2, hplay, e5, e4, ?_, ?_⟩
  · rw [e3, hv]
  · have hlg : lockedGrid inputDown s = LockToGrid s.grid s.current := by
      unfold lockedGrid
      rw [Move_down_up, handleKeys_no_keys inputDown s.grid s.current rfl rfl rfl]
    unfold linesClearedThisTick
    rw [if_pos hlock, hlg, hcl2]

/-- One of the first four squares is locked; no row is complete yet. -/
theorem lock_round (j : Nat) (hj : j < 4) (v : Int) (s : State) (h : OnFloor j v s) :
    ∃ s', AtRound (j + 1) v s' := by
  obtain ⟨hnf, hfree⟩ := (squares_lock_facts j (by omega)).2 hj
  obtain ⟨s', _, h2, h3, h4, h5, h6, _⟩ := lock_on_floor j (by omega) v s h 0
    (gridSquares (j + 1)) (ClearLines_no_full _ hnf) hfree
  exact ⟨s', h2, h3, h4, h5, by rw [h6]; rfl⟩

/-- The fifth square completes rows 18 and 19: the tick clears two lines
and adds 200 to the score in `int` arithmetic. -/
theorem lock_fifth (v : Int) (s : State) (h : OnFloor 4 v s) :
    ∃ s', step inputDown s = some s' ∧ AtRound 0 (wrapInt (v + 200)) s'
      ∧ linesClearedThisTick inputDown s = 2 := by
  obtain ⟨s', h1, h2, h3, h4, h5, h6, h7⟩ := lock_on_floor 4 (by omega) v s h 2 emptyGrid
    ClearLines_gridSquares_five (by decide)
  exact ⟨s', h1, ⟨h2, h3, h4, h5, by rw [h6]; rfl⟩, h7⟩

/-- From a blank grid, five squares can be brought to the floor one after
the other. -/
theorem reach_fifth_on_floor (v : Int) (s : State) (h : AtRound 0 v s) :
    ∃ s', OnFloor 4 v s' := by
  obtain ⟨s1, h1⟩ := fall_round 0 (by omega) v s h
  obtain ⟨s2, h2⟩ := lock_round 0 (by omega) v s1 h1
  obtain ⟨s3, h3⟩ := fall_round 1 (by omega) v s2 h2
  obtain ⟨s4, h4⟩ := lock_round 1 (by omega) v s3 h3
  obtain ⟨s5, h5⟩ := fall_round 2 (by omega) v s4 h4
  obtain ⟨s6, h6⟩ := lock_round 2 (by omega) v s5 h5
  obtain ⟨s7, h7⟩ := fall_round 3 (by omega) v s6 h6
  obtain ⟨s8, h8⟩ := lock_round 3 (by omega) v s7 h7
  exact fall_round 4 (by omega) v s8 h8

/-- Any number of such rounds can be played: each adds 200 to the score. -/
theorem reach_rounds (k : Nat) : ∃ s, AtRound 0 (wrapInt (200 * (k : Int))) s := by
  induction k with
  | zero =>
    refine ⟨stepMenu inputPlaySquare (initialState TetrominoType.I ⟨0, 0⟩ BLANK),
      Reachable.next inputPlaySquare _ _ (Reachable.initial _ _ _) rfl, ?_, ?_, ?_, ?_⟩
    · decide
    · decide
    · unfold stepMenu
      rw [if_pos (by decide)]
      dsimp only [initialState, gridSquares]
      exact resetGrid_emptyGrid
    · unfold stepMenu
      rw [if_pos (by decide)]
      rfl
  | succ k ih =>
    obtain ⟨s, hs⟩ := ih
    obtain ⟨s1, h1⟩ := reach_fifth_on_floor _ s hs
    obtain ⟨s2, _, h2, _⟩ := lock_fifth _ s1 h1
    refine ⟨s2, ?_⟩
    have : wrapInt (wrapInt (200 * (k : Int)) + 200) = wrapInt (200 * ((k + 1 : Nat) : Int)) := by
      have e : 200 * (k : Int) + 200 = 200 * ((k + 1 : Nat) : Int) := by omega
      rw [wrapInt_wrapInt_add, e]
    rw [← this]
    exact h2

/-- After 10737418 rounds the score is 2147483600, and the tick that
completes the next two rows takes it to -2147483496. -/
theorem overflow_tick_reachable :
    ∃ s s', Reachable s ∧ s.currentState = GameState.PLAYING
      ∧ s.gameScore.GetScore = 2147483600
      ∧ step inputDown s = some s' ∧ Reachable s'
      ∧ linesClearedThisTick inputDown s = 2
      ∧ s'.gameScore.GetScore = -2147483496 := by
  obtain ⟨s0, h0⟩ := reach_rounds 10737418
  have e0 : wrapInt (200 * ((10737418 : Nat) : Int)) = 2147483600 := by decide
  rw [e0] at h0
  obtain ⟨s, hs⟩ := reach_fifth_on_floor _ s0 h0
  obtain ⟨s', h1, h2, h3⟩ := lock_fifth _ s hs
  have e1 : wrapInt (2147483600 + 200) = -2147483496 := by decide
  rw [e1] at h2
  exact ⟨s, s', hs.1, hs.2.1, hs.2.2.2.2, h1, h2.1, h3, h2.2.2.2.2⟩

/-- Counterexample for C10 as stated: at score 2147483600 the tick that
locks the fifth square clears two lines, and the `int` sum wraps: the score
after the tick is -2147483496, not the score before plus 200, and it has
decreased. -/
theorem playing_tick_score_overflow :
    stateFifthSquareNearMax.currentState = GameState.PLAYING
    ∧ stateFifthSquareNearMax.gameScore.GetScore = 2147483600
    ∧ linesClearedThisTick inputDown stateFifthSquareNearMax = 2
    ∧ ∃ s', step inputDown stateFifthSquareNearMax = some s'
      ∧ s'.gameScore.GetScore = -2147483496
      ∧ s'.gameScore.GetScore
          ≠ stateFifthSquareNearMax.gameScore.GetScore
            + 100 * (linesClearedThisTick inputDown stateFifthSquareNearMax : Int)
      ∧ s'.gameScore.GetScore < stateFifthSquareNearMax.gameScore.GetScore := by
  have hlock : lockOccurs inputDown stateFifthSquareNearMax = true := by
    unfold lockOccurs fallDue
    rw [show inputDown.keyDown = true from rfl, Bool.or_true, Bool.true_and]
    decide
  have hlines : linesClearedThisTick inputDown stateFifthSquareNearMax = 2 := by
    rw [linesClearedThisTick_eq, if_pos hlock]
    decide
  obtain ⟨s', h1, h2⟩ := step_playing_score inputDown stateFifthSquareNearMax rfl
  rw [hlines] at h2
  have h3 : s'.gameScore.GetScore = -2147483496 := by
    rw [h2]
    decide
  refine ⟨rfl, rfl, hlines, s', h1, h3, ?_, ?_⟩
  · rw [h3, hlines]
    decide
  · rw [h3]
    decide

/-- Counterexample for C16 as stated: a state with the score -2147483496 is
reachable from the initial state (after 10737419 rounds of five squares,
each round clearing two lines), so the score is not non-negative in every
reachable state. -/
theorem score_negative_reachable :
    (∃ s, Reachable s ∧ s.gameScore.GetScore = -2147483496)
    ∧ ¬ (∀ s, Reachable s → 0 ≤ s.gameScore.GetScore) := by
  obtain ⟨s, s', _, _, _, _, hr, _, hv⟩ := overflow_tick_reachable
  refine ⟨⟨s', hr, hv⟩, ?_⟩
  intro h
  have := h s' hr
  rw [hv] at this
  exact absurd this (by decide)

/-- Counterexample for C20 as stated: from a reachable `PLAYING` state with
score 2147483600 a tick clears two lines and changes the score by
-4294967096, which is none of 0, 100, 200, 300, 400. -/
theorem score_gain_overflow :
    (∃ s inp s', Reachable s ∧ s.currentState = GameState.PLAYING
      ∧ step inp s = some s' ∧ linesClearedThisTick inp s = 2
      ∧ s'.gameScore.GetScore - s.gameScore.GetScore = -4294967096)
    ∧ ¬ (∀ s, Reachable s → ∀ inp, s.currentState = GameState.PLAYING →
          ∃ s', step inp s = some s'
            ∧ (s'.gameScore.GetScore - s.gameScore.GetScore = 0
              ∨ s'.gameScore.GetScore - s.gameScore.GetScore = 100
              ∨ s'.gameScore.GetScore - s.gameScore.GetScore = 200
              ∨ s'.gameScore.GetScore - s.gameScore.GetScore = 300
              ∨ s'.gameScore.GetScore - s.gameScore.GetScore = 400)) := by
  obtain ⟨s, s', hr, hs, hv, hstep, _, hl, hv'⟩ := overflow_tick_reachable
  have hgain : s'.gameScore.GetScore - s.gameScore.GetScore = -4294967096 := by
    rw [hv, hv']
    decide
  refine ⟨⟨s, inputDown, s', hr, hs, hstep, hl, hgain⟩, ?_⟩
  intro h
  obtain ⟨s2, h1, h2⟩ := h s hr inputDown hs
  rw [hstep] at h1
  simp only [Option.some.injEq] at h1
  subst h1
  rw [hgain] at h2
  revert h2
  decide

/-! ## Key handling in `float` arithmetic -/

theorem State_eq (a b : State) (h1 : a.currentState = b.currentState)
    (h2 : a.gameScore = b.gameScore) (h3 : a.store = b.store) (h4 : a.current = b.current)
    (h5 : a.fallTimer = b.fallTimer) (h6 : a.gameOverSoundPlayed = b.gameOverSoundPlayed)
    (h7 : a.grid = b.grid) : a = b := by
  cases a
  cases b
  simp only at h1 h2 h3 h4 h5 h6 h7
  subst h1 h2 h3 h4 h5 h6 h7
  rfl

theorem stateSquareStarted_fields :
    stateSquareStarted.currentState = GameState.PLAYING
    ∧ stateSquareStarted.gameScore.GetScore = 0
    ∧ stateSquareStarted.current = CreateTetromino TetrominoType.O
    ∧ stateSquareStarted.fallTimer = 0
    ∧ stateSquareStarted.gameOverSoundPlayed = false
    ∧ stateSquareStarted.grid = emptyGrid := by
  unfold stateSquareStarted stepMenu
  rw [if_pos (by decide)]
  refine ⟨rfl, rfl, rfl, rfl, rfl, ?_⟩
  dsimp only [initialState]
  exact resetGrid_emptyGrid

theorem stateSquareStarted_eq :
    stateSquareStarted = stateSquares 0 (CreateTetromino TetrominoType.O) :=
  State_eq _ _ rfl rfl rfl stateSquareStarted_fields.2.2.1 rfl rfl
    stateSquareStarted_fields.2.2.2.2.2

/-- A step from a state whose score is at most `INT_MAX - 400` stays in the
range of `int`. -/
theorem ReachableInRange_next_of_small (inp : Input) (s s' : State)
    (hr : ReachableInRange s) (hv : s.gameScore.GetScore ≤ 2147483247)
    (hstep : step inp s = some s') : ReachableInRange s' := by
  refine ReachableInRange.next inp s s' hr ?_ hstep
  intro hs
  have := linesClearedThisTick_le_four inp s
    (Reachable_Inv s (ReachableInRange_Reachable s hr)) hs
  unfold INT_MAX
  omega

/-- A checked falling path, followed state by state. -/
theorem fallPath_inRange (path : List (Input × Tetromino)) : ∀ (p : Tetromino) (s : State),
    ReachableInRange s → s.gameScore.GetScore ≤ 2147483247 →
    s.currentState = GameState.PLAYING → s.current = p → s.fallTimer = 0 →
    fallPathOk s.grid p path = true →
    ReachableInRange { s with current := pathEnd p path } := by
  induction path with
  | nil =>
    intro p s hr _ _ hp _ _
    have : ({ s with current := pathEnd p [] } : State) = s :=
      State_eq _ _ rfl rfl rfl hp.symm rfl rfl rfl
    rw [this]
    exact hr
  | cons head rest ih =>
    intro p s hr hv hs hp ht hok
    obtain ⟨inp, q⟩ := head
    simp only [fallPathOk, Bool.and_eq_true, decide_eq_true_eq, Bool.not_eq_true',
      ] at hok
    obtain ⟨⟨⟨hd, hq⟩, hc⟩, hrest⟩ := hok
    rw [← hp] at hq
    have hstep := step_keyDown_free inp s q hs hd hq hc
    have hr1 := ReachableInRange_next_of_small inp s _ hr hv hstep
    have h := ih q { s with current := q, fallTimer := 0 } hr1 hv hs rfl rfl hrest
    have : ({ s with current := pathEnd p ((inp, q) :: rest) } : State)
        = { ({ s with current := q, fallTimer := 0 } : State) with
            current := pathEnd q rest } :=
      State_eq _ _ rfl rfl rfl rfl ht rfl rfl
    rw [this]
    exact h

/-- Square `j` of the first round is brought down to the floor. -/
theorem stateSquares_fall (j : Nat) (hj : j < 5)
    (h : ReachableInRange (stateSquares j (CreateTetromino TetrominoType.O))) :
    ReachableInRange (stateSquares j (squareAt (2 * (j : Int)) 18)) := by
  obtain ⟨hok, hend⟩ := squarePath_ok j hj
  have := fallPath_inRange (squarePath j) (CreateTetromino TetrominoType.O)
    (stateSquares j (CreateTetromino TetrominoType.O)) h
    (by rw [show (stateSquares j (CreateTetromino TetrominoType.O)).gameScore
          = stateSquareStarted.gameScore from rfl, stateSquareStarted_fields.2.1]; decide)
    stateSquareStarted_fields.1 rfl stateSquareStarted_fields.2.2.2.1 hok
  rw [hend] at this
  exact this

/-- The tick that locks square `j` of the first round, for the first four
squares: no row is complete, and the next square spawns. -/
theorem stateSquares_lock (j : Nat) (hj : j < 4) :
    step inputDown (stateSquares j (squareAt (2 * (j : Int)) 18))
      = some (stateSquares (j + 1) (CreateTetromino TetrominoType.O)) := by
  obtain ⟨hblocked, hrest⟩ := squares_lock_facts j (by omega)
  obtain ⟨hnf, hfree⟩ := hrest hj
  obtain ⟨_, hstep⟩ := step_fall_blocked inputDown
    (stateSquares j (squareAt (2 * (j : Int)) 18)) stateSquareStarted_fields.1 rfl rfl rfl
    (by unfold fallDue; rw [show inputDown.keyDown = true from rfl, Bool.or_true]) hblocked
  rw [hstep]
  unfold lockAndSpawn
  have hcl : ClearLines (LockToGrid (stateSquares j (squareAt (2 * (j : Int)) 18)).grid
      (stateSquares j (squareAt (2 * (j : Int)) 18)).current)
      = some (0, gridSquares (j + 1)) := ClearLines_no_full _ hnf
  rw [hcl]
  simp only [show inputDown.randomType = TetrominoType.O from rfl, hfree, Bool.false_eq_true,
    if_false, gt_iff_lt, lt_self_iff_false, Option.some.injEq]
  exact State_eq _ _ rfl rfl rfl rfl stateSquareStarted_fields.2.2.2.1.symm rfl rfl

/-- The tick that locks the fifth square of the first round: rows 18 and 19
are cleared and the score becomes 200. -/
theorem stateSquares_lock_fifth :
    step inputDown (stateSquares 4 (squareAt 8 18)) = some stateRoundDone := by
  obtain ⟨hblocked, _⟩ := squares_lock_facts 4 (by omega)
  obtain ⟨_, hstep⟩ := step_fall_blocked inputDown
    (stateSquares 4 (squareAt 8 18)) stateSquareStarted_fields.1 rfl rfl rfl
    (by unfold fallDue; rw [show inputDown.keyDown = true from rfl, Bool.or_true]) hblocked
  rw [hstep]
  unfold lockAndSpawn
  have hcl : ClearLines (LockToGrid (stateSquares 4 (squareAt 8 18)).grid
      (stateSquares 4 (squareAt 8 18)).current) = some (2, emptyGrid) :=
    ClearLines_gridSquares_five
  rw [hcl]
  have hfree : CheckCollision emptyGrid (CreateTetromino TetrominoType.O) = false := by decide
  have hsum : wrapInt ((stateSquares 4 (squareAt 8 18)).gameScore.GetScore
      + wrapInt (((2 : Nat) : Int) * 100)) = 200 := by
    rw [show (stateSquares 4 (squareAt 8 18)).gameScore = stateSquareStarted.gameScore from rfl,
      stateSquareStarted_fields.2.1]
    decide
  simp only [show inputDown.randomType = TetrominoType.O from rfl, hfree, Bool.false_eq_true,
    if_false, gt_iff_lt, Nat.ofNat_pos, if_true, hsum, Option.some.injEq]
  exact State_eq _ _ rfl rfl rfl rfl stateSquareStarted_fields.2.2.2.1.symm rfl rfl

theorem stateSquareStarted_inRange : ReachableInRange stateSquareStarted :=
  ReachableInRange.next inputPlaySquare (initialState TetrominoType.I ⟨0, 0⟩ BLANK)
    stateSquareStarted (ReachableInRange.initial _ _ _) (fun h => by cases h) rfl

theorem stateSquares_score (j : Nat) (p : Tetromino) :
    (stateSquares j p).gameScore.GetScore ≤ 2147483247 := by
  rw [show (stateSquares j p).gameScore = stateSquareStarted.gameScore from rfl,
    stateSquareStarted_fields.2.1]
  decide

/-- The first round up to the fifth square resting on the floor is played
without leaving the range of `int`. -/
theorem stateSquares_inRange : ∀ j, j < 5 →
    ReachableInRange (stateSquares j (squareAt (2 * (j : Int)) 18)) := by
  intro j
  induction j with
  | zero =>
    intro hj
    apply stateSquares_fall 0 hj
    rw [← stateSquareStarted_eq]
    exact stateSquareStarted_inRange
  | succ j ih =>
    intro hj
    apply stateSquares_fall (j + 1) hj
    exact ReachableInRange_next_of_small inputDown _ _ (ih (by omega))
      (stateSquares_score _ _) (stateSquares_lock j (by omega))

theorem stateRoundDone_inRange : ReachableInRange stateRoundDone :=
  ReachableInRange_next_of_small inputDown _ _ (stateSquares_inRange 4 (by omega))
    (stateSquares_score _ _) stateSquares_lock_fifth

/-- Witness for C16: the state after the first five squares have cleared
two rows is reached without overflow, and its score is 200. -/
theorem score_nonneg_witness :
    ReachableInRange stateRoundDone
    ∧ stateRoundDone.gameScore.GetScore = 200
    ∧ 0 ≤ stateRoundDone.gameScore.GetScore :=
  ⟨stateRoundDone_inRange, rfl, score_nonneg stateRoundDone stateRoundDone_inRange⟩

/-- The tick that locks the fifth square of the first round clears two
lines. -/
theorem stateSquares_fifth_lines :
    linesClearedThisTick inputDown (stateSquares 4 (squareAt 8 18)) = 2 := by
  have hlock : lockOccurs inputDown (stateSquares 4 (squareAt 8 18)) = true := by
    unfold lockOccurs fallDue
    rw [show inputDown.keyDown = true from rfl, Bool.or_true, Bool.true_and]
    decide
  rw [linesClearedThisTick_eq, if_pos hlock]
  decide

/-- Witness for C20: the state of the first round in which the fifth square
rests on the floor is reachable; the tick that locks the square clears two
lines and adds 200. -/
theorem no_full_row_between_ticks_witness :
    Reachable (stateSquares 4 (squareAt 8 18))
    ∧ ((∀ y, y < ROWS → ¬ RowIsFull (stateSquares 4 (squareAt 8 18)).grid y)
      ∧ ∀ inp, (stateSquares 4 (squareAt 8 18)).currentState = GameState.PLAYING →
          linesClearedThisTick inp (stateSquares 4 (squareAt 8 18)) ≤ 4
          ∧ ∃ s', step inp (stateSquares 4 (squareAt 8 18)) = some s'
            ∧ ((stateSquares 4 (squareAt 8 18)).gameScore.GetScore
                  + 100 * (linesClearedThisTick inp (stateSquares 4 (squareAt 8 18)) : Int)
                  ≤ INT_MAX →
                (s'.gameScore.GetScore
                    - (stateSquares 4 (squareAt 8 18)).gameScore.GetScore = 0
                ∨ s'.gameScore.GetScore
                    - (stateSquares 4 (squareAt 8 18)).gameScore.GetScore = 100
                ∨ s'.gameScore.GetScore
                    - (stateSquares 4 (squareAt 8 18)).gameScore.GetScore = 200
                ∨ s'.gameScore.GetScore
                    - (stateSquares 4 (squareAt 8 18)).gameScore.GetScore = 300
                ∨ s'.gameScore.GetScore
                    - (stateSquares 4 (squareAt 8 18)).gameScore.GetScore = 400)))
    ∧ linesClearedThisTick inputDown (stateSquares 4 (squareAt 8 18)) = 2
    ∧ step inputDown (stateSquares 4 (squareAt 8 18)) = some stateRoundDone
    ∧ stateRoundDone.gameScore.GetScore
        - (stateSquares 4 (squareAt 8 18)).gameScore.GetScore = 200 :=
  ⟨ReachableInRange_Reachable _ (stateSquares_inRange 4 (by omega)),
    no_full_row_between_ticks _
      (ReachableInRange_Reachable _ (stateSquares_inRange 4 (by omega))),
    stateSquares_fifth_lines, stateSquares_lock_fifth, by decide⟩

end Treetis
